import Mathlib

/-!
# Verification of the roslibrust interface-definition front end

This file gives a shallow embedding, in Lean 4, of the parse / canonicalize /
hash pipeline of the `roslibrust_codegen` crate:

* `src/roslibrust_codegen/src/parse/mod.rs` — the type-token grammar
  (`parse_type`, `parse_field_type`, `parse_bounded_string`,
  `is_intrinsic_type` and the intrinsic-type tables);
* `src/roslibrust_codegen/src/ros2_hashing.rs` — the ROS2 type-hash
  computation (`convert_to_type_description`, the canonical JSON encoder
  `to_ros2_json` with its `Ros2Formatter`, the symbolic/numeric field-type
  tables, `calculate_hash`, `calculate_ros2_hash`, `calculate_ros2_srv_hash`).

Machine integers are modelled as `Nat` with explicit reduction `% 2^w` where
the Rust code truncates (`as u32` casts, 32-bit SHA-256 words).  Fallible Rust
functions returning `Result` are modelled with `Except String`; a Rust panic
(`.expect`, arithmetic underflow, out-of-bounds slice) is modelled as a
distinguished outcome, never conflated with a returned error.

Strings are modelled at the `List Char` level; the Rust code indexes strings
by UTF-8 byte position, which coincides with character position on the ASCII
inputs the grammar accepts, and `BTreeMap<String, _>` key order (UTF-8 byte
lexicographic) coincides with `List Char` lexicographic order because UTF-8
preserves code-point order.
-/

namespace Roslibrust

/-! ## SHA-256 over byte lists

Faithful model of the `sha2::Sha256` computation used by `calculate_hash`:
bytes are `Nat < 256`, words are `Nat < 2^32` with explicit `% 2^32`.
All definitions are structurally recursive so they evaluate in the kernel. -/

/-- Truncation to a 32-bit word. -/
def w32 (n : Nat) : Nat := n % 4294967296

/-- Bitwise NOT on a 32-bit word (the argument is assumed `< 2^32`). -/
def wnot (x : Nat) : Nat := 4294967295 - x

/-- Right rotation of a 32-bit word by `n` places. -/
def rotr (n x : Nat) : Nat := w32 ((x >>> n) ||| (x <<< (32 - n)))

/-- SHA-256 `Ch` function. -/
def shaCh (x y z : Nat) : Nat := (x &&& y) ^^^ ((wnot x) &&& z)

/-- SHA-256 `Maj` function. -/
def shaMaj (x y z : Nat) : Nat := (x &&& y) ^^^ (x &&& z) ^^^ (y &&& z)

/-- SHA-256 `Σ0`. -/
def shaS0 (x : Nat) : Nat := (rotr 2 x) ^^^ (rotr 13 x) ^^^ (rotr 22 x)

/-- SHA-256 `Σ1`. -/
def shaS1 (x : Nat) : Nat := (rotr 6 x) ^^^ (rotr 11 x) ^^^ (rotr 25 x)

/-- SHA-256 `σ0`. -/
def shaLS0 (x : Nat) : Nat := (rotr 7 x) ^^^ (rotr 18 x) ^^^ (x >>> 3)

/-- SHA-256 `σ1`. -/
def shaLS1 (x : Nat) : Nat := (rotr 17 x) ^^^ (rotr 19 x) ^^^ (x >>> 10)

/-- The 64 SHA-256 round constants (decimal rendering of the standard
values). -/
def shaK : List Nat :=
  [1116352408, 1899447441, 3049323471, 3921009573, 961987163,
   1508970993, 2453635748, 2870763221, 3624381080, 310598401,
   607225278, 1426881987, 1925078388, 2162078206, 2614888103,
   3248222580, 3835390401, 4022224774, 264347078, 604807628,
   770255983, 1249150122, 1555081692, 1996064986, 2554220882,
   2821834349, 2952996808, 3210313671, 3336571891, 3584528711,
   113926993, 338241895, 666307205, 773529912, 1294757372,
   1396182291, 1695183700, 1986661051, 2177026350, 2456956037,
   2730485921, 2820302411, 3259730800, 3345764771, 3516065817,
   3600352804, 4094571909, 275423344, 430227734, 506948616,
   659060556, 883997877, 958139571, 1322822218, 1537002063,
   1747873779, 1955562222, 2024104815, 2227730452, 2361852424,
   2428436474, 2756734187, 3204031479, 3329325298]

/-- The SHA-256 initial hash state (decimal rendering of the standard
values). -/
def shaH0 : List Nat :=
  [1779033703, 3144134277, 1013904242, 2773480762, 1359893119,
   2600822924, 528734635, 1541459225]

/-- Big-endian rendering of a 64-bit value as 8 bytes. -/
def be64 (n : Nat) : List Nat :=
  [(n >>> 56) % 256, (n >>> 48) % 256, (n >>> 40) % 256, (n >>> 32) % 256,
   (n >>> 24) % 256, (n >>> 16) % 256, (n >>> 8) % 256, n % 256]

/-- Big-endian rendering of a 32-bit word as 4 bytes. -/
def be32 (n : Nat) : List Nat :=
  [(n >>> 24) % 256, (n >>> 16) % 256, (n >>> 8) % 256, n % 256]

/-- SHA-256 padding: append `0x80`, zeros up to 56 mod 64, and the bit length
in big-endian over 8 bytes. -/
def shaPad (msg : List Nat) : List Nat :=
  msg ++ 0x80 :: List.replicate ((119 - (msg.length % 64)) % 64) 0
      ++ be64 (msg.length * 8)

/-- Split a byte list into 64-byte chunks; the first argument is fuel that
makes the recursion structural (the caller passes the list length, which
always suffices since each step consumes at least one element). -/
def chunks64 : Nat → List Nat → List (List Nat)
  | 0, _ => []
  | _ + 1, [] => []
  | fuel + 1, l => l.take 64 :: chunks64 fuel (l.drop 64)

/-- Assemble big-endian 32-bit words from a list of bytes (4 bytes per word). -/
def bytesToWords : List Nat → List Nat
  | b0 :: b1 :: b2 :: b3 :: rest =>
      (((b0 * 256 + b1) * 256 + b2) * 256 + b3) :: bytesToWords rest
  | _ => []

/-- One message-schedule extension step; the accumulator holds the schedule
words in reverse order (most recent first). -/
def schedStep (acc : List Nat) : List Nat :=
  w32 (shaLS1 (acc.getD 1 0) + acc.getD 6 0 + shaLS0 (acc.getD 14 0)
       + acc.getD 15 0) :: acc

/-- Iterate the schedule extension `k` times. -/
def schedRun : Nat → List Nat → List Nat
  | 0, acc => acc
  | k + 1, acc => schedRun k (schedStep acc)

/-- Extend the 16 block words to the 64-word message schedule. -/
def schedule (w16 : List Nat) : List Nat := (schedRun 48 w16.reverse).reverse

/-- One SHA-256 compression round on the state `[a,b,c,d,e,f,g,h]`; `kw` is
the pair of round constant and schedule word. -/
def compressStep (st : List Nat) (kw : Nat × Nat) : List Nat :=
  match st with
  | [a, b, c, d, e, f, g, h] =>
      let t1 := w32 (h + shaS1 e + shaCh e f g + kw.1 + kw.2)
      let t2 := w32 (shaS0 a + shaMaj a b c)
      [w32 (t1 + t2), a, b, c, w32 (d + t1), e, f, g]
  | other => other

/-- Process one 64-byte block, updating the 8-word hash state. -/
def processBlock (h : List Nat) (block : List Nat) : List Nat :=
  let st := (shaK.zip (schedule (bytesToWords block))).foldl compressStep h
  (h.zip st).map (fun p => w32 (p.1 + p.2))

/-- SHA-256 of a byte list, as the list of 32 digest bytes. -/
def sha256 (msg : List Nat) : List Nat :=
  let padded := shaPad msg
  ((chunks64 padded.length padded).foldl processBlock shaH0).foldr
    (fun w acc => be32 w ++ acc) []

/-- Lowercase hexadecimal digit for a value `< 16`. -/
def hexDigit (d : Nat) : Char :=
  if d < 10 then Char.ofNat (48 + d) else Char.ofNat (87 + d)

/-- Two lowercase hex characters for one byte. -/
def byteHex (b : Nat) : List Char := [hexDigit (b / 16), hexDigit (b % 16)]

/-- Lowercase hex rendering of a byte list. -/
def bytesHex (l : List Nat) : List Char := (l.map byteHex).flatten

/-- UTF-8 encoding of one character, as bytes. -/
def utf8Char (c : Char) : List Nat :=
  let n := c.toNat
  if n < 0x80 then [n]
  else if n < 0x800 then
    [0xC0 ||| (n >>> 6), 0x80 ||| (n &&& 0x3F)]
  else if n < 0x10000 then
    [0xE0 ||| (n >>> 12), 0x80 ||| ((n >>> 6) &&& 0x3F), 0x80 ||| (n &&& 0x3F)]
  else
    [0xF0 ||| (n >>> 18), 0x80 ||| ((n >>> 12) &&& 0x3F),
     0x80 ||| ((n >>> 6) &&& 0x3F), 0x80 ||| (n &&& 0x3F)]

/-- UTF-8 encoding of a character list, as bytes. -/
def utf8Bytes (l : List Char) : List Nat := (l.map utf8Char).flatten

/-! ### String helpers

Structural char-list implementations of `str::starts_with`,
`str::ends_with` and `str::split`, used instead of the core `String`
functions so every model function evaluates by kernel reduction. -/

/-- `str::starts_with` on strings. -/
def strStartsWith (s t : String) : Bool := s.data.take t.data.length == t.data

/-- `str::ends_with` on strings. -/
def strEndsWith (s t : String) : Bool :=
  s.data.reverse.take t.data.length == t.data.reverse

/-- `str::split(sep)` on character lists: splits at every separator,
keeping empty segments (so the result is always nonempty). -/
def splitOnChar (sep : Char) : List Char → List (List Char)
  | [] => [[]]
  | c :: rest =>
      match splitOnChar sep rest with
      | [] => [[c]]
      | p :: ps => if c = sep then [] :: p :: ps else (c :: p) :: ps

/-- `str::split(sep).collect()` on strings. -/
def strSplitOn (s : String) (sep : Char) : List String :=
  (splitOnChar sep s.data).map String.mk

/-! ## Data model

Embedding of the crate's core data types.  `RosVersion`, `ArrayType`,
`FieldType`, `FieldInfo`, `ConstantInfo`, `ParsedMessageFile`,
`ParsedServiceFile`, `MessageFile`, `Ros2Hash` and `Package` are declared in
the crate root and `utils`/`parse` modules; their shapes are fixed by how
`parse/mod.rs`, `ros2_hashing.rs` and `ros2_builtin_interfaces.rs` construct
and consume them.  Rust `usize`/`u32` fields become `Nat`, `PathBuf` becomes
`String`. -/

/-- `utils::RosVersion` — the protocol version attached to a package. -/
inductive RosVersion where
  | ROS1
  | ROS2
deriving DecidableEq, Repr

/-- `ArrayType` — array kind of a field type. -/
inductive ArrayType where
  | NotArray
  | FixedLength (n : Nat)
  | Bounded (n : Nat)
  | Unbounded
deriving DecidableEq, Repr

/-- `utils::Package` — package name, filesystem root and optional version. -/
structure Package where
  name : String
  path : String
  version : Option RosVersion
deriving DecidableEq, Repr

/-- `FieldType` — a structured field-type description, exactly the struct the
parser builds in `parse_field_type`. -/
structure FieldType where
  package_name : Option String
  source_package : String
  field_type : String
  array_info : ArrayType
  string_capacity : Option Nat
deriving DecidableEq, Repr

/-- `FieldInfo` — one declared field of a message. -/
structure FieldInfo where
  field_name : String
  field_type : FieldType
  default : Option String
deriving DecidableEq, Repr

/-- `ConstantInfo` — one declared constant of a message. -/
structure ConstantInfo where
  constant_type : String
  constant_name : String
  constant_value : String
deriving DecidableEq, Repr

/-- `parse::ParsedMessageFile` — the parse result for one message file. -/
structure ParsedMessageFile where
  name : String
  package : String
  fields : List FieldInfo
  constants : List ConstantInfo
  version : Option RosVersion
  source : String
  path : String
deriving DecidableEq, Repr

/-- `parse::ParsedServiceFile` — the parse result for one service file, with
embedded request and response messages. -/
structure ParsedServiceFile where
  name : String
  package : String
  path : String
  request_type : ParsedMessageFile
  response_type : ParsedMessageFile
deriving DecidableEq, Repr

/-- `Ros2Hash` — a 32-byte SHA-256 digest (`Ros2Hash(pub [u8; 32])`), bytes
as `Nat < 256`. -/
structure Ros2Hash where
  bytes : List Nat
deriving DecidableEq, Repr

/-- `Default::default()` for `Ros2Hash`: 32 zero bytes. -/
def Ros2Hash.zero : Ros2Hash := ⟨List.replicate 32 0⟩

/-- Modelled from the spec: `Ros2Hash::to_hash_string` (crate root, not under
`src/`) renders the content hash as the literal tag `"RIHS01_"` followed by
the 64 lowercase hex characters of the 32 digest bytes (§4.6 of the spec). -/
def Ros2Hash.to_hash_string (h : Ros2Hash) : String :=
  "RIHS01_" ++ String.mk (bytesHex h.bytes)

/-- `MessageFile` — a resolved graph node: the parsed message plus derived
values (legacy digest, content hash, canonical definition text, fixed-length
flag). -/
structure MessageFile where
  parsed : ParsedMessageFile
  ros2_hash : Ros2Hash
  md5sum : String
  definition : String
  is_fixed_encoding_length : Bool
deriving DecidableEq, Repr

/-- The type graph `BTreeMap<String, MessageFile>`, modelled as an
association list.  Only `get`, `insert` and `clone` are used by the embedded
code, so iteration order never matters and an association list is a faithful
model. -/
def Graph : Type := List (String × MessageFile)

/-- `BTreeMap::get`. -/
def Graph.get (g : Graph) (k : String) : Option MessageFile :=
  match g with
  | [] => none
  | (k', v) :: rest => if k = k' then some v else Graph.get rest k

/-- `BTreeMap::insert` (replaces the value under an existing key, otherwise
adds the binding). -/
def Graph.insert (g : Graph) (k : String) (v : MessageFile) : Graph :=
  match g with
  | [] => [(k, v)]
  | (k', v') :: rest =>
      if k = k' then (k, v) :: rest else (k', v') :: Graph.insert rest k v

/-! ## Name helpers

The accessor methods below live in the crate root (`lib.rs`), which is not
under `src/`; they are modelled from the spec, which pins down their
behaviour (§3 invariant on `FieldTypeRef`, §4.4 on package-qualified nested
type names and the `.../srv/...` convention, §4.3 on fully-qualified graph
keys). -/

/-- Modelled from the spec: `FieldType::is_primitive` (crate root, not under
`src/`).  Per the §3 invariant — "exactly one of {referenced_package present,
bare_type_name intrinsic} holds" — a field type is primitive exactly when it
carries no referenced package. -/
def FieldType.is_primitive (ft : FieldType) : Bool := ft.package_name.isNone

/-- Modelled from the spec: `FieldInfo::get_full_type_name` (crate root, not
under `src/`).  The fully-qualified name used as the graph key for a
non-primitive field: `referenced_package/bare_type_name` (§4.2, §4.3). -/
def FieldInfo.get_full_type_name (f : FieldInfo) : String :=
  (f.field_type.package_name.getD f.field_type.source_package) ++ "/"
    ++ f.field_type.field_type

/-- Modelled from the spec: `FieldInfo::get_ros2_full_type_name` (crate root,
not under `src/`).  The normal message-namespace qualified name
`package/msg/Type` used as a nested-type name (§4.4). -/
def FieldInfo.get_ros2_full_type_name (f : FieldInfo) : String :=
  (f.field_type.package_name.getD f.field_type.source_package) ++ "/msg/"
    ++ f.field_type.field_type

/-- Modelled from the spec: `ParsedMessageFile::get_full_name` (crate root,
not under `src/`).  The fully-qualified graph key `package/Name` ("does not
include /srv/", per the comment in `calculate_ros2_srv_hash`). -/
def ParsedMessageFile.get_full_name (p : ParsedMessageFile) : String :=
  p.package ++ "/" ++ p.name

/-- Modelled from the spec: `ParsedMessageFile::get_ros2_full_name` (crate
root, not under `src/`).  The qualified canonical `type_name`: messages are
namespaced `package/msg/Name`, while types originating from a service file
(the synthesized request/response/event/aggregate messages, which carry the
`.srv` origin path) use the `package/srv/Name` convention instead (§4.4:
"namespaced under a `.../srv/...` convention instead of the normal message
namespace").  The model keys the distinction on the origin path's `.srv`
extension; this reproduces the repository's own `AddTwoInts` service hash
test vector. -/
def ParsedMessageFile.get_ros2_full_name (p : ParsedMessageFile) : String :=
  if strEndsWith p.path ".srv" then p.package ++ "/srv/" ++ p.name
  else p.package ++ "/msg/" ++ p.name

/-- Modelled from the spec: `ParsedServiceFile::get_full_name` (crate root,
not under `src/`): the fully-qualified service name `package/Name`. -/
def ParsedServiceFile.get_full_name (p : ParsedServiceFile) : String :=
  p.package ++ "/" ++ p.name

/-! ## The parser (`src/roslibrust_codegen/src/parse/mod.rs`)

Embeddings of `ROS_PRIMITIVE_TYPE_LIST`, the intrinsic-type tables,
`is_intrinsic_type`, `parse_bounded_string`, `parse_field_type` and
`parse_type`.  Rust string indexing is by UTF-8 byte offset; the model works
at character level, which agrees on the ASCII grammar tokens involved. -/

/-- `ROS_PRIMITIVE_TYPE_LIST` — the 17 bare primitive tokens. -/
def ROS_PRIMITIVE_TYPE_LIST : List String :=
  ["bool", "int8", "uint8", "byte", "char", "int16", "uint16", "int32",
   "uint32", "int64", "uint64", "float32", "float64", "string", "wstring",
   "time", "duration"]

/-- `ROS_TYPE_TO_RUST_TYPE_MAP` — the ROS1 intrinsic table (keys and values
as listed in the source; only key membership is consumed by
`is_intrinsic_type`). -/
def ROS_TYPE_TO_RUST_TYPE_MAP : List (String × String) :=
  [("bool", "bool"), ("int8", "i8"), ("uint8", "u8"), ("byte", "u8"),
   ("char", "u8"), ("int16", "i16"), ("uint16", "u16"), ("int32", "i32"),
   ("uint32", "u32"), ("int64", "i64"), ("uint64", "u64"),
   ("float32", "f32"), ("float64", "f64"),
   ("string", "::std::string::String"),
   ("time", "::roslibrust::codegen::integral_types::Time"),
   ("duration", "::roslibrust::codegen::integral_types::Duration")]

/-- Association-list lookup (`HashMap::get` on a literal table). -/
def lookupTable (tbl : List (String × String)) (k : String) : Option String :=
  match tbl with
  | [] => none
  | (k', v) :: rest => if k = k' then some v else lookupTable rest k

/-- `is_intrinsic_type` — version-specific intrinsic check: ROS1 consults the
keys of `ROS_TYPE_TO_RUST_TYPE_MAP`, ROS2 consults
`ROS_PRIMITIVE_TYPE_LIST`. -/
def is_intrinsic_type (version : RosVersion) (ros_type : String) : Bool :=
  match version with
  | RosVersion.ROS1 => (lookupTable ROS_TYPE_TO_RUST_TYPE_MAP ros_type).isSome
  | RosVersion.ROS2 => ROS_PRIMITIVE_TYPE_LIST.contains ros_type

/-- Rust `str::parse::<usize>`: an optional leading `+`, then one or more
ASCII digits, with the value bounded by the 64-bit `usize` range. -/
def rustParseUsize (s : String) : Option Nat :=
  let cs := match s.data with
    | '+' :: rest => rest
    | other => other
  if cs.isEmpty then none
  else if cs.all Char.isDigit then
    let v := cs.foldl (fun acc c => acc * 10 + (c.toNat - 48)) 0
    if v < 18446744073709551616 then some v else none
  else none

/-- `parse_bounded_string` — strips a `string<=N` bounded-string suffix,
returning the base type and the capacity. -/
def parse_bounded_string (type_str : String) :
    Except String (String × Option Nat) :=
  if strStartsWith type_str "string<=" then
    match rustParseUsize (String.mk (type_str.data.drop 8)) with
    | some capacity => Except.ok ("string", some capacity)
    | none =>
        Except.error
          ("Unable to parse capacity of bounded string: " ++ type_str)
  else Except.ok (type_str, none)

/-- `parse_field_type` — resolves a bare or package-qualified type token
(array information already stripped by `parse_type`) to a `FieldType`.
Mirrors the source exactly: a single-segment token goes through the
intrinsic table and the `Header` special case; a multi-segment token uses
`items[0]` as the package and `items[1]` as the type, with any further
segments ignored. -/
def parse_field_type (type_str : String) (array_info : ArrayType)
    (pkg : Package) : Except String FieldType :=
  let items := strSplitOn type_str '/'
  if items.length = 1 then
    let pkg_version := pkg.version.getD RosVersion.ROS1
    match parse_bounded_string (items.headI) with
    | Except.error e => Except.error e
    | Except.ok (field_type, string_capacity) =>
        Except.ok
          { package_name :=
              if is_intrinsic_type pkg_version field_type then none
              else if type_str = "Header" then some "std_msgs"
              else some pkg.name,
            source_package := pkg.name,
            field_type := field_type,
            array_info := array_info,
            string_capacity := string_capacity }
  else
    Except.ok
      { package_name := some items.headI,
        source_package := pkg.name,
        field_type := items.getD 1 "",
        array_info := array_info,
        string_capacity := none }

/-- Outcome of a Rust function that can return `Ok`, return `Err`, or panic
(abort the process).  A panic is kept distinct from a returned error. -/
inductive ParseOutcome (α : Type) where
  | ok (val : α)
  | err (msg : String)
  | panic
deriving DecidableEq, Repr

/-- Whether an outcome is a returned `Err`. -/
def ParseOutcome.isErr {α : Type} : ParseOutcome α → Bool
  | ParseOutcome.err _ => true
  | _ => false

/-- Lift a `Result` into a `ParseOutcome` (the `?` operator). -/
def liftResult {α : Type} : Except String α → ParseOutcome α
  | Except.ok v => ParseOutcome.ok v
  | Except.error e => ParseOutcome.err e

/-- Index of the first occurrence of a character (`str::find`). -/
def findCharIdx : List Char → Char → Option Nat
  | [], _ => none
  | x :: rest, c =>
      if x = c then some 0 else (findCharIdx rest c).map (· + 1)

/-- `parse_type` — the array-bracket grammar over a whitespace-free type
token.  Mirrors the source: first `[` at index `o`, first `]` at index `c`;
both present and adjacent → `Unbounded`; both present with content starting
`<=` → `Bounded`; other numeric content → `FixedLength`; exactly one bracket
present → returned parse error.  When `]` occurs before `[` the Rust code
evaluates `c - o` on `usize` (panic in debug profile) and then slices
`type_str[(o + 1)..c]` with `o + 1 > c` (panic in release profile); the model
records that as `ParseOutcome.panic`.  Error message text is simplified
(the source interpolates `{err}` and `{pkg:?}` debug output). -/
def parse_type (type_str : String) (pkg : Package) : ParseOutcome FieldType :=
  let cs := type_str.data
  match findCharIdx cs '[', findCharIdx cs ']' with
  | some o, some c =>
      if c < o then ParseOutcome.panic
      else if c - o = 1 then
        liftResult
          (parse_field_type (String.mk (cs.take o)) ArrayType.Unbounded pkg)
      else
        let fixed_size_str := String.mk ((cs.take c).drop (o + 1))
        let bounded := strStartsWith fixed_size_str "<="
        let offset := if bounded then 2 else 0
        match rustParseUsize (String.mk (fixed_size_str.data.drop offset)) with
        | none =>
            ParseOutcome.err
              ("Unable to parse size of the array: " ++ type_str
                ++ ", defaulting to 0")
        | some fixed_size =>
            liftResult
              (parse_field_type (String.mk (cs.take o))
                (if bounded then ArrayType.Bounded fixed_size
                 else ArrayType.FixedLength fixed_size) pkg)
  | none, none =>
      liftResult (parse_field_type type_str ArrayType.NotArray pkg)
  | _, _ =>
      ParseOutcome.err
        ("Found malformed type: " ++ type_str
          ++ " in package. Likely file is invalid.")

/-! ## ROS2 hashing (`src/roslibrust_codegen/src/ros2_hashing.rs`)

The canonical type-description structures, the symbolic/numeric field-type
tag tables, the canonical JSON encoder and the hash computation. -/

/-- `FIELD_TYPE_NAME_TO_ID` — the fixed symbolic-name → numeric-tag table
(copied from the ROS2 `rosidl` generator). -/
def FIELD_TYPE_NAME_TO_ID : List (String × Nat) :=
  [("FIELD_TYPE_NOT_SET", 0),
   ("FIELD_TYPE_NESTED_TYPE", 1),
   ("FIELD_TYPE_INT8", 2),
   ("FIELD_TYPE_UINT8", 3),
   ("FIELD_TYPE_INT16", 4),
   ("FIELD_TYPE_UINT16", 5),
   ("FIELD_TYPE_INT32", 6),
   ("FIELD_TYPE_UINT32", 7),
   ("FIELD_TYPE_INT64", 8),
   ("FIELD_TYPE_UINT64", 9),
   ("FIELD_TYPE_FLOAT", 10),
   ("FIELD_TYPE_DOUBLE", 11),
   ("FIELD_TYPE_LONG_DOUBLE", 12),
   ("FIELD_TYPE_CHAR", 13),
   ("FIELD_TYPE_WCHAR", 14),
   ("FIELD_TYPE_BOOLEAN", 15),
   ("FIELD_TYPE_BYTE", 16),
   ("FIELD_TYPE_STRING", 17),
   ("FIELD_TYPE_WSTRING", 18),
   ("FIELD_TYPE_FIXED_STRING", 19),
   ("FIELD_TYPE_FIXED_WSTRING", 20),
   ("FIELD_TYPE_BOUNDED_STRING", 21),
   ("FIELD_TYPE_BOUNDED_WSTRING", 22),
   ("FIELD_TYPE_NESTED_TYPE_ARRAY", 49),
   ("FIELD_TYPE_INT8_ARRAY", 50),
   ("FIELD_TYPE_UINT8_ARRAY", 51),
   ("FIELD_TYPE_INT16_ARRAY", 52),
   ("FIELD_TYPE_UINT16_ARRAY", 53),
   ("FIELD_TYPE_INT32_ARRAY", 54),
   ("FIELD_TYPE_UINT32_ARRAY", 55),
   ("FIELD_TYPE_INT64_ARRAY", 56),
   ("FIELD_TYPE_UINT64_ARRAY", 57),
   ("FIELD_TYPE_FLOAT_ARRAY", 58),
   ("FIELD_TYPE_DOUBLE_ARRAY", 59),
   ("FIELD_TYPE_LONG_DOUBLE_ARRAY", 60),
   ("FIELD_TYPE_CHAR_ARRAY", 61),
   ("FIELD_TYPE_WCHAR_ARRAY", 62),
   ("FIELD_TYPE_BOOLEAN_ARRAY", 63),
   ("FIELD_TYPE_BYTE_ARRAY", 64),
   ("FIELD_TYPE_STRING_ARRAY", 65),
   ("FIELD_TYPE_WSTRING_ARRAY", 66),
   ("FIELD_TYPE_FIXED_STRING_ARRAY", 67),
   ("FIELD_TYPE_FIXED_WSTRING_ARRAY", 68),
   ("FIELD_TYPE_BOUNDED_STRING_ARRAY", 69),
   ("FIELD_TYPE_BOUNDED_WSTRING_ARRAY", 70),
   ("FIELD_TYPE_NESTED_TYPE_BOUNDED_SEQUENCE", 97),
   ("FIELD_TYPE_INT8_BOUNDED_SEQUENCE", 98),
   ("FIELD_TYPE_UINT8_BOUNDED_SEQUENCE", 99),
   ("FIELD_TYPE_INT16_BOUNDED_SEQUENCE", 100),
   ("FIELD_TYPE_UINT16_BOUNDED_SEQUENCE", 101),
   ("FIELD_TYPE_INT32_BOUNDED_SEQUENCE", 102),
   ("FIELD_TYPE_UINT32_BOUNDED_SEQUENCE", 103),
   ("FIELD_TYPE_INT64_BOUNDED_SEQUENCE", 104),
   ("FIELD_TYPE_UINT64_BOUNDED_SEQUENCE", 105),
   ("FIELD_TYPE_FLOAT_BOUNDED_SEQUENCE", 106),
   ("FIELD_TYPE_DOUBLE_BOUNDED_SEQUENCE", 107),
   ("FIELD_TYPE_LONG_DOUBLE_BOUNDED_SEQUENCE", 108),
   ("FIELD_TYPE_CHAR_BOUNDED_SEQUENCE", 109),
   ("FIELD_TYPE_WCHAR_BOUNDED_SEQUENCE", 110),
   ("FIELD_TYPE_BOOLEAN_BOUNDED_SEQUENCE", 111),
   ("FIELD_TYPE_BYTE_BOUNDED_SEQUENCE", 112),
   ("FIELD_TYPE_STRING_BOUNDED_SEQUENCE", 113),
   ("FIELD_TYPE_WSTRING_BOUNDED_SEQUENCE", 114),
   ("FIELD_TYPE_FIXED_STRING_BOUNDED_SEQUENCE", 115),
   ("FIELD_TYPE_FIXED_WSTRING_BOUNDED_SEQUENCE", 116),
   ("FIELD_TYPE_BOUNDED_STRING_BOUNDED_SEQUENCE", 117),
   ("FIELD_TYPE_BOUNDED_WSTRING_BOUNDED_SEQUENCE", 118),
   ("FIELD_TYPE_NESTED_TYPE_UNBOUNDED_SEQUENCE", 145),
   ("FIELD_TYPE_INT8_UNBOUNDED_SEQUENCE", 146),
   ("FIELD_TYPE_UINT8_UNBOUNDED_SEQUENCE", 147),
   ("FIELD_TYPE_INT16_UNBOUNDED_SEQUENCE", 148),
   ("FIELD_TYPE_UINT16_UNBOUNDED_SEQUENCE", 149),
   ("FIELD_TYPE_INT32_UNBOUNDED_SEQUENCE", 150),
   ("FIELD_TYPE_UINT32_UNBOUNDED_SEQUENCE", 151),
   ("FIELD_TYPE_INT64_UNBOUNDED_SEQUENCE", 152),
   ("FIELD_TYPE_UINT64_UNBOUNDED_SEQUENCE", 153),
   ("FIELD_TYPE_FLOAT_UNBOUNDED_SEQUENCE", 154),
   ("FIELD_TYPE_DOUBLE_UNBOUNDED_SEQUENCE", 155),
   ("FIELD_TYPE_LONG_DOUBLE_UNBOUNDED_SEQUENCE", 156),
   ("FIELD_TYPE_CHAR_UNBOUNDED_SEQUENCE", 157),
   ("FIELD_TYPE_WCHAR_UNBOUNDED_SEQUENCE", 158),
   ("FIELD_TYPE_BOOLEAN_UNBOUNDED_SEQUENCE", 159),
   ("FIELD_TYPE_BYTE_UNBOUNDED_SEQUENCE", 160),
   ("FIELD_TYPE_STRING_UNBOUNDED_SEQUENCE", 161),
   ("FIELD_TYPE_WSTRING_UNBOUNDED_SEQUENCE", 162),
   ("FIELD_TYPE_FIXED_STRING_UNBOUNDED_SEQUENCE", 163),
   ("FIELD_TYPE_FIXED_WSTRING_UNBOUNDED_SEQUENCE", 164),
   ("FIELD_TYPE_BOUNDED_STRING_UNBOUNDED_SEQUENCE", 165),
   ("FIELD_TYPE_BOUNDED_WSTRING_UNBOUNDED_SEQUENCE", 166)]

/-- Numeric-tag lookup (`HashMap::get` on `FIELD_TYPE_NAME_TO_ID`). -/
def lookupTypeId (k : String) : Option Nat :=
  (FIELD_TYPE_NAME_TO_ID.find? (fun p => p.1 = k)).map Prod.snd

/-- `FIELD_VALUE_TYPE_NAMES` — ROS type token → canonical tag-name core
(note: the table keys `octet`, not `byte`, and `bool`, not `boolean`). -/
def FIELD_VALUE_TYPE_NAMES : List (String × String) :=
  [("nested_type", "NESTED_TYPE"), ("int8", "INT8"), ("uint8", "UINT8"),
   ("int16", "INT16"), ("uint16", "UINT16"), ("int32", "INT32"),
   ("uint32", "UINT32"), ("int64", "INT64"), ("uint64", "UINT64"),
   ("float32", "FLOAT"), ("float64", "DOUBLE"), ("long", "LONG_DOUBLE"),
   ("char", "CHAR"), ("wchar", "WCHAR"), ("bool", "BOOLEAN"),
   ("octet", "BYTE"), ("string", "STRING"), ("wstring", "WSTRING"),
   ("bounded_string", "BOUNDED_STRING"),
   ("bounded_wstring", "BOUNDED_WSTRING")]

/-- `get_field_type_string` — builds the symbolic tag name: a `char` token is
first remapped to `uint8`, the core name comes from `FIELD_VALUE_TYPE_NAMES`
with fallback `NESTED_TYPE`, a `BOUNDED_` marker is inserted exactly when a
string capacity is present, and the array suffix follows the array kind. -/
def get_field_type_string (ft : FieldType) : String :=
  let temp_field_type := if ft.field_type = "char" then "uint8"
                         else ft.field_type
  let core_name := match lookupTable FIELD_VALUE_TYPE_NAMES temp_field_type with
    | some name => name
    | none => "NESTED_TYPE"
  let boundedMark := match ft.string_capacity with
    | some _ => "BOUNDED_"
    | none => ""
  let arraySfx := match ft.array_info with
    | ArrayType.FixedLength _ => "_ARRAY"
    | ArrayType.Unbounded => "_UNBOUNDED_SEQUENCE"
    | ArrayType.Bounded _ => "_BOUNDED_SEQUENCE"
    | ArrayType.NotArray => ""
  "FIELD_TYPE_" ++ boundedMark ++ core_name ++ arraySfx

/-- `get_field_type_id` — numeric tag for a field type; a symbolic name
absent from the table is a returned error (`bail!`). -/
def get_field_type_id (ft : FieldType) : Except String Nat :=
  match lookupTypeId (get_field_type_string ft) with
  | some id => Except.ok id
  | none =>
      Except.error
        ("Failed to find field type ID for " ++ get_field_type_string ft)

/-- `FieldType` (hashing module) — the `type` member of a canonical field
description. -/
structure FieldTypeDesc where
  type_id : Nat
  capacity : Nat
  string_capacity : Nat
  nested_type_name : String
deriving DecidableEq, Repr

/-- `Field` (hashing module) — one canonical field description.  The Rust
struct also carries a `_default_value` member marked `#[serde(skip)]`, which
never reaches the JSON encoding and is omitted here. -/
structure FieldDesc where
  name : String
  type : FieldTypeDesc
deriving DecidableEq, Repr

/-- `TypeDescription` — a canonical structural form: type name plus ordered
field descriptions. -/
structure TypeDescription where
  type_name : String
  fields : List FieldDesc
deriving DecidableEq, Repr

/-- `TypeDescriptionMsg` — the top-level canonical structure that is
serialized and hashed. -/
structure TypeDescriptionMsg where
  type_description : TypeDescription
  referenced_type_descriptions : List TypeDescription
deriving DecidableEq, Repr

/-! ### Canonical JSON encoder (`to_ros2_json` with `Ros2Formatter`)

`serde_json` with the custom `Ros2Formatter` emits: `{` and `}` around
objects, `[` and `]` around arrays, `", "` before every non-first object key
and array element, `": "` after every object key, double-quoted strings with
the serde escape rules, and bare decimal integers — nothing else.  The
encoder below is that serializer monomorphized to `TypeDescriptionMsg`
(derived `Serialize` visits members in declaration order, with `field_type`
renamed to `"type"` and `_default_value` skipped), working over `List Char`
so the hash input is explicit. -/

/-- Decimal digit character for a value `< 10`. -/
def decDigit (d : Nat) : Char := Char.ofNat (48 + d)

/-- Decimal rendering helper; the fuel argument makes the recursion
structural and any fuel `≥` the digit count gives the full rendering. -/
def natDecAux : Nat → Nat → List Char
  | 0, _ => []
  | fuel + 1, n =>
      if n < 10 then [decDigit n]
      else natDecAux fuel (n / 10) ++ [decDigit (n % 10)]

/-- Decimal rendering of a natural number (serde integer output). -/
def natDec (n : Nat) : List Char := natDecAux (n + 1) n

/-- serde_json string escaping for one character: `"` and `\` get a
backslash, control characters use the short escapes or `\u00XX`. -/
def escapeChar (c : Char) : List Char :=
  if c = '"' then ['\\', '"']
  else if c = '\\' then ['\\', '\\']
  else if c.toNat < 32 then
    if c.toNat = 8 then ['\\', 'b']
    else if c.toNat = 9 then ['\\', 't']
    else if c.toNat = 10 then ['\\', 'n']
    else if c.toNat = 12 then ['\\', 'f']
    else if c.toNat = 13 then ['\\', 'r']
    else ['\\', 'u', '0', '0', hexDigit (c.toNat / 16), hexDigit (c.toNat % 16)]
  else [c]

/-- A double-quoted, escaped JSON string. -/
def quoteChars (s : String) : List Char :=
  '"' :: (s.data.map escapeChar).flatten ++ ['"']

/-- Join pre-rendered members with the `", "` separator the `Ros2Formatter`
writes before every non-first member. -/
def joinComma : List (List Char) → List Char
  | [] => []
  | [x] => x
  | x :: xs => x ++ ',' :: ' ' :: joinComma xs

/-- One `"key": value` object member (`begin_object_value` writes `": "`). -/
def kvChars (k : String) (v : List Char) : List Char :=
  quoteChars k ++ ':' :: ' ' :: v

/-- A JSON object from pre-rendered members. -/
def objChars (members : List (List Char)) : List Char :=
  '{' :: joinComma members ++ ['}']

/-- A JSON array from pre-rendered elements. -/
def arrChars (elems : List (List Char)) : List Char :=
  '[' :: joinComma elems ++ [']']

/-- Canonical JSON of a `FieldTypeDesc` (serde member order: `type_id`,
`capacity`, `string_capacity`, `nested_type_name`). -/
def fieldTypeDescChars (ft : FieldTypeDesc) : List Char :=
  objChars
    [kvChars "type_id" (natDec ft.type_id),
     kvChars "capacity" (natDec ft.capacity),
     kvChars "string_capacity" (natDec ft.string_capacity),
     kvChars "nested_type_name" (quoteChars ft.nested_type_name)]

/-- Canonical JSON of a `FieldDesc` (member `field_type` serializes under the
name `"type"`; `_default_value` is skipped). -/
def fieldDescChars (f : FieldDesc) : List Char :=
  objChars
    [kvChars "name" (quoteChars f.name),
     kvChars "type" (fieldTypeDescChars f.type)]

/-- Canonical JSON of a `TypeDescription`. -/
def typeDescriptionChars (td : TypeDescription) : List Char :=
  objChars
    [kvChars "type_name" (quoteChars td.type_name),
     kvChars "fields" (arrChars (td.fields.map fieldDescChars))]

/-- Canonical JSON of a `TypeDescriptionMsg`. -/
def tdmsgChars (m : TypeDescriptionMsg) : List Char :=
  objChars
    [kvChars "type_description" (typeDescriptionChars m.type_description),
     kvChars "referenced_type_descriptions"
       (arrChars (m.referenced_type_descriptions.map typeDescriptionChars))]

/-- `to_ros2_json` — the canonical JSON encoding of a `TypeDescriptionMsg`
as a string. -/
def to_ros2_json (m : TypeDescriptionMsg) : String := String.mk (tdmsgChars m)

/-- `calculate_hash` — SHA-256 of the UTF-8 bytes of the canonical JSON. -/
def calculate_hash (m : TypeDescriptionMsg) : Ros2Hash :=
  ⟨sha256 (utf8Bytes (tdmsgChars m))⟩

/-! ### Canonical type-description builder (`convert_to_type_description`)

The Rust function recurses through the graph without any depth bound (a
cyclic graph would recurse forever); the model takes an explicit fuel
argument, and any fuel exceeding the nesting depth of the type yields the
Rust result.  Running out of fuel is an error distinct from every message
the Rust code can produce. -/

/-- The phantom field ROS2 interposes for empty messages. -/
def phantomField : FieldDesc :=
  ⟨"structure_needs_at_least_one_member", ⟨3, 0, 0, ""⟩⟩

/-- `SPECIAL_SUFFIX` — type-name suffixes that select service naming. -/
def SPECIAL_SUFFIX : List String := ["_Request", "_Response", "_Event"]

/-- The `nested_type_name` of one canonical field: empty for a primitive;
under service naming a `_Request`/`_Response`/`_Event` type is qualified as
`source_package/srv/Type`; otherwise the normal `package/msg/Type`. -/
def nestedTypeNameOf (service_naming : Bool) (field : FieldInfo) : String :=
  if field.field_type.is_primitive then ""
  else if service_naming
      && SPECIAL_SUFFIX.any (fun s => strEndsWith field.field_type.field_type s)
    then field.field_type.source_package ++ "/srv/"
      ++ field.field_type.field_type
  else field.get_ros2_full_type_name

/-- The element-count `capacity` of one canonical field (`as u32` cast). -/
def capacityOf : ArrayType → Nat
  | ArrayType.Bounded n => n % 4294967296
  | ArrayType.FixedLength n => n % 4294967296
  | ArrayType.Unbounded => 0
  | ArrayType.NotArray => 0

/-- Code-point lexicographic order on character lists; this coincides with
the UTF-8 byte-lexicographic order `BTreeMap<String, _>` keys use, because
UTF-8 preserves code-point order. -/
def charListLt : List Char → List Char → Bool
  | [], [] => false
  | [], _ :: _ => true
  | _ :: _, [] => false
  | a :: as, b :: bs =>
      if a.toNat < b.toNat then true
      else if b.toNat < a.toNat then false
      else charListLt as bs

/-- String order as `BTreeMap` sees it. -/
def strLt (a b : String) : Bool := charListLt a.data b.data

/-- `BTreeMap<String, TypeDescription>::insert` on a list kept sorted by key
in ascending order (the map is later flattened in exactly this order). -/
def refInsert (k : String) (v : TypeDescription) :
    List (String × TypeDescription) → List (String × TypeDescription)
  | [] => [(k, v)]
  | (k', v') :: rest =>
      if strLt k k' then (k, v) :: (k', v') :: rest
      else if k = k' then (k, v) :: rest
      else (k', v') :: refInsert k v rest

/-- The field loop of `convert_to_type_description`: walks the declared
fields, appending one canonical field description each and folding every
non-primitive field's transitive type descriptions into the referenced-type
map.  `recConv` is the recursive call at the next lower fuel. -/
def convertFieldsGo
    (recConv : ParsedMessageFile → Graph → Bool → Except String TypeDescriptionMsg)
    (parsed : ParsedMessageFile) (graph : Graph) (service_naming : Bool) :
    List FieldInfo → List FieldDesc → List (String × TypeDescription) →
    Except String (List FieldDesc × List (String × TypeDescription))
  | [], flds, refs => Except.ok (flds, refs)
  | field :: rest, flds, refs =>
      match get_field_type_id field.field_type with
      | Except.error e => Except.error e
      | Except.ok tid =>
          let fd : FieldDesc :=
            ⟨field.field_name,
             ⟨tid, capacityOf field.field_type.array_info,
              (field.field_type.string_capacity.getD 0) % 4294967296,
              nestedTypeNameOf service_naming field⟩⟩
          if field.field_type.is_primitive then
            convertFieldsGo recConv parsed graph service_naming rest
              (flds ++ [fd]) refs
          else
            match graph.get field.get_full_type_name with
            | none =>
                Except.error
                  ("Failed to find definition for nested type: "
                    ++ field.get_full_type_name ++ " while hashing "
                    ++ parsed.get_full_name ++ " for ROS2")
            | some sub_message =>
                match recConv sub_message.parsed graph true with
                | Except.error e => Except.error e
                | Except.ok sub =>
                    let refs1 := sub.referenced_type_descriptions.foldl
                      (fun r td => refInsert td.type_name td r) refs
                    let refs2 := refInsert sub.type_description.type_name
                      sub.type_description refs1
                    convertFieldsGo recConv parsed graph service_naming rest
                      (flds ++ [fd]) refs2

/-- `convert_to_type_description` — lowers a parsed message to its canonical
structural form, given the type graph and the service-naming flag. -/
def convert_to_type_description :
    Nat → ParsedMessageFile → Graph → Bool → Except String TypeDescriptionMsg
  | 0, _, _, _ => Except.error "recursion depth exceeded"
  | fuel + 1, parsed, graph, service_naming =>
      let initFields : List FieldDesc :=
        if parsed.fields.isEmpty then [phantomField] else []
      match convertFieldsGo (convert_to_type_description fuel) parsed graph
          service_naming parsed.fields initFields [] with
      | Except.error e => Except.error e
      | Except.ok (flds, refs) =>
          Except.ok ⟨⟨parsed.get_ros2_full_name, flds⟩, refs.map Prod.snd⟩

/-- `calculate_ros2_hash` — the public message-hash entry point.  The Rust
body unwraps the conversion with `.expect(...)`, i.e. panics on a conversion
error even though its doc comment promises returning `None`; the model
renders that panic as `none`. -/
def calculate_ros2_hash (fuel : Nat) (parsed : ParsedMessageFile)
    (graph : Graph) : Option Ros2Hash :=
  match convert_to_type_description fuel parsed graph false with
  | Except.ok td => some (calculate_hash td)
  | Except.error _ => none

/-! ### Service hashing (`calculate_ros2_srv_hash`) -/

/-- A synthetic graph entry: the given parsed message with dummy derived
values (`Default::default()` hash, empty md5sum and definition). -/
def srvDummyEntry (p : ParsedMessageFile) : MessageFile :=
  ⟨p, Ros2Hash.zero, "", "", true⟩

/-- The synthesized `_Event` virtual message of a service: an `info` field
of type `service_msgs/ServiceEventInfo` plus `request` and `response`
fields holding the request/response types as capacity-1 bounded arrays. -/
def srv_event_msg (parsed : ParsedServiceFile) : ParsedMessageFile :=
  { name := parsed.name ++ "_Event",
    package := parsed.package,
    fields :=
      [⟨"info",
        ⟨some "service_msgs", "service_msgs", "ServiceEventInfo",
         ArrayType.NotArray, none⟩, none⟩,
       ⟨"request",
        ⟨some parsed.package, parsed.package, parsed.name ++ "_Request",
         ArrayType.Bounded 1, none⟩, none⟩,
       ⟨"response",
        ⟨some parsed.package, parsed.package, parsed.name ++ "_Response",
         ArrayType.Bounded 1, none⟩, none⟩],
    constants := [],
    version := some RosVersion.ROS2,
    source := "",
    path := parsed.path }

/-- The synthesized aggregate message of a service: exactly the three fields
`request_message`, `response_message`, `event_message`, referencing the
request, response and event virtual types. -/
def srv_total_message_file (parsed : ParsedServiceFile) : ParsedMessageFile :=
  { name := parsed.name,
    package := parsed.package,
    fields :=
      [⟨"request_message",
        ⟨some parsed.package, parsed.package, parsed.name ++ "_Request",
         ArrayType.NotArray, none⟩, none⟩,
       ⟨"response_message",
        ⟨some parsed.package, parsed.package, parsed.name ++ "_Response",
         ArrayType.NotArray, none⟩, none⟩,
       ⟨"event_message",
        ⟨some parsed.package, parsed.package, parsed.name ++ "_Event",
         ArrayType.NotArray, none⟩, none⟩],
    constants := [],
    version := some RosVersion.ROS2,
    source := "",
    path := parsed.path }

/-- The internal clone of the caller's graph, extended with the three
virtual entries (event, request, response — in the source's insertion
order) keyed by their ROS1-style full names; request and response are the
parsed request/response bodies renamed with the `_Request`/`_Response`
suffixes. -/
def srv_graph_copy (parsed : ParsedServiceFile) (graph : Graph) : Graph :=
  ((graph.insert (parsed.get_full_name ++ "_Event")
      (srvDummyEntry (srv_event_msg parsed))).insert
    (parsed.get_full_name ++ "_Request")
      (srvDummyEntry { parsed.request_type with
                        name := parsed.name ++ "_Request" })).insert
    (parsed.get_full_name ++ "_Response")
      (srvDummyEntry { parsed.response_type with
                        name := parsed.name ++ "_Response" })

/-- `calculate_ros2_srv_hash` — hashes the synthesized aggregate over the
extended internal graph copy (the `.expect` panic modelled as `none`). -/
def calculate_ros2_srv_hash (fuel : Nat) (parsed : ParsedServiceFile)
    (graph : Graph) : Option Ros2Hash :=
  match convert_to_type_description fuel (srv_total_message_file parsed)
      (srv_graph_copy parsed graph) true with
  | Except.ok td => some (calculate_hash td)
  | Except.error _ => none

/-- State-level reading of `calculate_ros2_srv_hash`: the Rust function
takes the caller's graph by immutable borrow and mutates only its own
clone, so the caller-visible graph after the call is the unchanged input. -/
def calculate_ros2_srv_hash_st (fuel : Nat) (parsed : ParsedServiceFile)
    (graph : Graph) : Option Ros2Hash × Graph :=
  let graph_copy := srv_graph_copy parsed graph
  (match convert_to_type_description fuel (srv_total_message_file parsed)
      graph_copy true with
   | Except.ok td => some (calculate_hash td)
   | Except.error _ => none,
   graph)

/-! ## Concrete instances

Parse results of the always-available built-in definitions
(`ros2_builtin_interfaces.rs`: `builtin_interfaces/Time`,
`builtin_interfaces/Duration`, `service_msgs/ServiceEventInfo`) and of the
minimal `std_msgs/String` message (`string data`), written out as the
`ParsedMessageFile` values the parser produces for them.  The derived
`MessageFile` members other than `parsed` are never read by the hashing
code, so graph entries carry placeholder derived values. -/

/-- A scalar intrinsic field type belonging to `source_package`. -/
def primFT (pkg ty : String) : FieldType := ⟨none, pkg, ty, ArrayType.NotArray, none⟩

/-- Parse result of the builtin `Time` message (`int32 sec`,
`uint32 nanosec`). -/
def timeParsed : ParsedMessageFile :=
  { name := "Time",
    package := "builtin_interfaces",
    fields :=
      [⟨"sec", primFT "builtin_interfaces" "int32", none⟩,
       ⟨"nanosec", primFT "builtin_interfaces" "uint32", none⟩],
    constants := [],
    version := some RosVersion.ROS2,
    source := "",
    path := "/tmp/msg/Time.msg" }

/-- Parse result of the builtin `Duration` message (same shape as `Time`). -/
def durationParsed : ParsedMessageFile :=
  { name := "Duration",
    package := "builtin_interfaces",
    fields :=
      [⟨"sec", primFT "builtin_interfaces" "int32", none⟩,
       ⟨"nanosec", primFT "builtin_interfaces" "uint32", none⟩],
    constants := [],
    version := some RosVersion.ROS2,
    source := "",
    path := "/tmp/msg/Duration.msg" }

/-- Parse result of the builtin `ServiceEventInfo` message. -/
def serviceEventInfoParsed : ParsedMessageFile :=
  { name := "ServiceEventInfo",
    package := "service_msgs",
    fields :=
      [⟨"event_type", primFT "service_msgs" "uint8", none⟩,
       ⟨"stamp",
        ⟨some "builtin_interfaces", "service_msgs", "Time",
         ArrayType.NotArray, none⟩, none⟩,
       ⟨"client_gid",
        ⟨none, "service_msgs", "char", ArrayType.FixedLength 16, none⟩,
        none⟩,
       ⟨"sequence_number", primFT "service_msgs" "int64", none⟩],
    constants :=
      [⟨"uint8", "REQUEST_SENT", "0"⟩, ⟨"uint8", "REQUEST_RECEIVED", "1"⟩,
       ⟨"uint8", "RESPONSE_SENT", "2"⟩, ⟨"uint8", "RESPONSE_RECEIVED", "3"⟩],
    version := some RosVersion.ROS2,
    source := "",
    path := "/tmp/msg/ServiceEventInfo.msg" }

/-- A graph entry with placeholder derived values (only `parsed` is ever
read during hashing). -/
def plainEntry (p : ParsedMessageFile) : MessageFile :=
  ⟨p, Ros2Hash.zero, "", "", true⟩

/-- The graph holding the three always-available built-in types. -/
def builtinGraph : Graph :=
  [("builtin_interfaces/Duration", plainEntry durationParsed),
   ("builtin_interfaces/Time", plainEntry timeParsed),
   ("service_msgs/ServiceEventInfo", plainEntry serviceEventInfoParsed)]

/-- Parse result of `std_msgs/String` — the minimal message whose only
declared field is `string data`. -/
def stdMsgsString : ParsedMessageFile :=
  { name := "String",
    package := "std_msgs",
    fields := [⟨"data", primFT "std_msgs" "string", none⟩],
    constants := [],
    version := some RosVersion.ROS2,
    source := "",
    path := "std_msgs/msg/String.msg" }

/-- Parse result of the `AddTwoInts` request body (`int64 a`, `int64 b`),
before the `_Request` renaming applied during service hashing. -/
def addTwoIntsReq : ParsedMessageFile :=
  { name := "AddTwoIntsRequest",
    package := "ros2_test_msgs",
    fields :=
      [⟨"a", primFT "ros2_test_msgs" "int64", none⟩,
       ⟨"b", primFT "ros2_test_msgs" "int64", none⟩],
    constants := [],
    version := some RosVersion.ROS2,
    source := "",
    path := "/tmp/srv/AddTwoInts.srv" }

/-- Parse result of the `AddTwoInts` response body (`int64 sum`). -/
def addTwoIntsResp : ParsedMessageFile :=
  { name := "AddTwoIntsResponse",
    package := "ros2_test_msgs",
    fields := [⟨"sum", primFT "ros2_test_msgs" "int64", none⟩],
    constants := [],
    version := some RosVersion.ROS2,
    source := "",
    path := "/tmp/srv/AddTwoInts.srv" }

/-- Parse result of the `AddTwoInts` service file. -/
def addTwoIntsSrv : ParsedServiceFile :=
  { name := "AddTwoInts",
    package := "ros2_test_msgs",
    path := "/tmp/srv/AddTwoInts.srv",
    request_type := addTwoIntsReq,
    response_type := addTwoIntsResp }

/-- A test package (mirrors the `test_pkg` used by the parser's own tests). -/
def pkgT : Package := ⟨"test_pkg", "./not_a_path", some RosVersion.ROS1⟩

/-- A message referencing a package-qualified type that no graph supplies. -/
def missingDepMsg : ParsedMessageFile :=
  { name := "BadMsg",
    package := "test_pkg",
    fields :=
      [⟨"dep", ⟨some "missing_pkg", "test_pkg", "Nope", ArrayType.NotArray,
        none⟩, none⟩],
    constants := [],
    version := some RosVersion.ROS2,
    source := "",
    path := "test_pkg/msg/BadMsg.msg" }

/-- A message with zero declared fields. -/
def emptyMsg : ParsedMessageFile :=
  { name := "Empty",
    package := "test_pkg",
    fields := [],
    constants := [],
    version := some RosVersion.ROS2,
    source := "",
    path := "test_pkg/msg/Empty.msg" }

/-! ## Output-shape predicates for the canonical JSON encoder

The encoder's whitespace discipline is stated over adjacent characters of
the output: a space may appear only as the second character of a `": "` or
`", "` separator, every separator colon/comma is followed by exactly one
space, and no closing bracket is preceded by a space. -/

/-- Adjacency discipline for one pair of consecutive output characters
`a, b`: a space is preceded by a colon or comma, a colon or comma is
followed by a space, and a closing bracket is not preceded by a space. -/
def okPair (a b : Char) : Bool :=
  (!(b == ' ') || (a == ':' || a == ','))
    && ((!(a == ':') && !(a == ',')) || b == ' ')
    && ((!(b == '}') && !(b == ']')) || !(a == ' '))

/-- A well-formed output segment: nonempty, adjacency-disciplined, free of
line breaks and tabs, opening with a character that may follow a separator
space and closing with one that may precede a separator or bracket. -/
structure Seg (l : List Char) : Prop where
  ne : l ≠ []
  chain : List.Chain' (fun a b => okPair a b = true) l
  ctl : ∀ c ∈ l, ¬(c = '\n' ∨ c = '\t' ∨ c = '\r')
  headOk : ∀ h ∈ l.head?, ¬(h = ' ' ∨ h = '}' ∨ h = ']')
  lastOk : ∀ h ∈ l.getLast?, ¬(h = ' ' ∨ h = ':' ∨ h = ',')

/-- A string all of whose characters are free of spaces, colons and commas
(every name the parser can produce satisfies this: type and field tokens
are whitespace-delimited and never contain `:` or `,`). -/
def plainStr (s : String) : Prop := ∀ c ∈ s.data, ¬(c = ' ' ∨ c = ':' ∨ c = ',')

/-- All strings of a canonical structural form are plain. -/
def plainTD (td : TypeDescription) : Prop :=
  plainStr td.type_name ∧
    ∀ f ∈ td.fields, plainStr f.name ∧ plainStr f.type.nested_type_name

/-- All strings of a top-level canonical structure are plain. -/
def plainMsg (m : TypeDescriptionMsg) : Prop :=
  plainTD m.type_description ∧
    ∀ td ∈ m.referenced_type_descriptions, plainTD td

instance (s : String) : Decidable (plainStr s) := by
  unfold plainStr; infer_instance

instance (td : TypeDescription) : Decidable (plainTD td) := by
  unfold plainTD; infer_instance

instance (m : TypeDescriptionMsg) : Decidable (plainMsg m) := by
  unfold plainMsg; infer_instance

/-- The scalar rows of the canonical-name table as the code realises them:
the claim's table amended at `char` (remapped to `uint8` before lookup, so
its core name is `UINT8`) and at `byte` (absent from
`FIELD_VALUE_TYPE_NAMES`, which keys `octet`, so it falls back to
`NESTED_TYPE`). -/
def c4AmendedScalarTable : List (String × String) :=
  [("bool", "BOOLEAN"), ("int8", "INT8"), ("uint8", "UINT8"),
   ("int16", "INT16"), ("uint16", "UINT16"), ("int32", "INT32"),
   ("uint32", "UINT32"), ("int64", "INT64"), ("uint64", "UINT64"),
   ("float32", "FLOAT"), ("float64", "DOUBLE"), ("string", "STRING"),
   ("char", "UINT8"), ("byte", "NESTED_TYPE"), ("octet", "BYTE")]

/-- The canonical field description produced for one declared field when
conversion succeeds (the `type_id` reads the successful result of
`get_field_type_id`). -/
def fieldDescOf (sn : Bool) (field : FieldInfo) : FieldDesc :=
  ⟨field.field_name,
   ⟨(get_field_type_id field.field_type).toOption.getD 0,
    capacityOf field.field_type.array_info,
    (field.field_type.string_capacity.getD 0) % 4294967296,
    nestedTypeNameOf sn field⟩⟩

/-! ## Helper lemmas -/

/-- `Graph.get` after `Graph.insert`: the inserted key maps to the new
value, every other key is unchanged. -/
theorem Graph.get_insert (g : Graph) (k k' : String) (v : MessageFile) :
    (g.insert k v).get k' = if k' = k then some v else g.get k' := by
  induction g with
  | nil =>
      by_cases h : k' = k <;> simp [Graph.insert, Graph.get, h]
  | cons hd tl ih =>
      obtain ⟨k₀, v₀⟩ := hd
      by_cases hk : k = k₀
      · subst hk
        by_cases h : k' = k <;> simp [Graph.insert, Graph.get, h]
      · by_cases h : k' = k
        · subst h
          simp [Graph.insert, Graph.get, hk, ih]
        · have hk' : k₀ ≠ k := fun hh => hk hh.symm
          by_cases h0 : k' = k₀ <;>
            simp [Graph.insert, Graph.get, hk, h, h0, ih, hk']

/-- Appending different suffixes to the same string gives different
strings (they have different lengths). -/
theorem append_ne_of_length_ne (s a b : String)
    (h : a.length ≠ b.length) : s ++ a ≠ s ++ b := by
  intro he
  have : (s ++ a).length = (s ++ b).length := by rw [he]
  rw [String.length_append, String.length_append] at this
  omega

set_option maxHeartbeats 2000000 in
/-- When the field loop of `convert_to_type_description` succeeds, the
produced field-description list is the accumulator followed by exactly one
`fieldDescOf` entry per declared field, in declaration order. -/
theorem convertFieldsGo_fields
    (recConv : ParsedMessageFile → Graph → Bool → Except String TypeDescriptionMsg)
    (parsed : ParsedMessageFile) (graph : Graph) (sn : Bool) :
    ∀ (fl : List FieldInfo) (accF : List FieldDesc)
      (accR : List (String × TypeDescription))
      (res : List FieldDesc × List (String × TypeDescription)),
      convertFieldsGo recConv parsed graph sn fl accF accR = Except.ok res →
      res.1 = accF ++ fl.map (fieldDescOf sn) := by
  intro fl
  induction fl with
  | nil =>
      intro accF accR res h
      simp only [convertFieldsGo, Except.ok.injEq] at h
      simp [← h]
  | cons field rest ih =>
      intro accF accR res h
      simp only [convertFieldsGo] at h
      split at h
      · cases h
      · rename_i tid hid
        split at h
        · have := ih _ _ _ h
          simp [this, fieldDescOf, hid, Except.toOption, Option.getD]
        · split at h
          · cases h
          · rename_i sub hg
            split at h
            · cases h
            · have := ih _ _ _ h
              simp [this, fieldDescOf, hid, Except.toOption, Option.getD]


theorem okPair_iff {a b : Char} :
    okPair a b = true ↔
      ((b = ' ' → a = ':' ∨ a = ',') ∧ ((a = ':' ∨ a = ',') → b = ' ')
        ∧ ((b = '}' ∨ b = ']') → a ≠ ' ')) := by
  simp only [okPair, Bool.and_eq_true, Bool.or_eq_true, Bool.not_eq_true',
    beq_iff_eq, beq_eq_false_iff_ne]
  tauto

theorem okPair_of_plain_left {a b : Char}
    (ha : ¬(a = ' ' ∨ a = ':' ∨ a = ',')) (hb : b ≠ ' ') :
    okPair a b = true := by
  rw [okPair_iff]
  tauto

theorem chain'_of_plain {l : List Char}
    (h : ∀ c ∈ l, ¬(c = ' ' ∨ c = ':' ∨ c = ',')) :
    List.Chain' (fun a b => okPair a b = true) l := by
  induction l with
  | nil => exact List.chain'_nil
  | cons a t ih =>
      rw [List.chain'_cons']
      refine ⟨?_, ih (fun c hc => h c (List.mem_cons_of_mem _ hc))⟩
      intro y hy
      have hyl : y ∈ t := by
        cases t with
        | nil => cases hy
        | cons b t' => cases hy; exact List.mem_cons_self _ _
      exact okPair_of_plain_left (h a (List.mem_cons_self _ _))
        (fun he => (h y (List.mem_cons_of_mem _ hyl)) (Or.inl he))

theorem getLast?_mem' {l : List Char} {a : Char} (h : l.getLast? = some a) :
    a ∈ l := by
  induction l with
  | nil => cases h
  | cons x t ih =>
      cases ht : t with
      | nil => rw [ht] at h; cases h; exact List.mem_singleton_self _
      | cons y t' =>
          rw [ht] at h
          rw [List.getLast?_cons_cons] at h
          exact ht ▸ List.mem_cons_of_mem _ (ih (ht ▸ h))

theorem seg_atom {l : List Char} (hne : l ≠ [])
    (hall : ∀ c ∈ l, ¬(c = ' ' ∨ c = ':' ∨ c = ',' ∨ c = '\n' ∨ c = '\t' ∨ c = '\r'))
    (hhead : ∀ h ∈ l.head?, ¬(h = '}' ∨ h = ']')) : Seg l := by
  refine ⟨hne, chain'_of_plain (fun c hc => ?_), fun c hc => ?_, fun h hm => ?_, fun h hm => ?_⟩
  · have := hall c hc; tauto
  · have := hall c hc; tauto
  · have hmem : h ∈ l := by
      cases l with
      | nil => cases hm
      | cons x t => cases hm; exact List.mem_cons_self _ _
    have := hall h hmem
    have := hhead h hm
    tauto
  · have hmem : h ∈ l := getLast?_mem' hm
    have := hall h hmem
    tauto

theorem hexDigit_plain : ∀ d : Fin 16,
    ¬(hexDigit d.val = ' ' ∨ hexDigit d.val = ':' ∨ hexDigit d.val = ','
      ∨ hexDigit d.val = '\n' ∨ hexDigit d.val = '\t' ∨ hexDigit d.val = '\r')
    ∧ ¬(hexDigit d.val = '}' ∨ hexDigit d.val = ']') := by decide

theorem decDigit_plain : ∀ d : Fin 10,
    ¬(decDigit d.val = ' ' ∨ decDigit d.val = ':' ∨ decDigit d.val = ','
      ∨ decDigit d.val = '\n' ∨ decDigit d.val = '\t' ∨ decDigit d.val = '\r')
    ∧ ¬(decDigit d.val = '}' ∨ decDigit d.val = ']') := by decide

theorem escapeChar_plain {c : Char} (hc : ¬(c = ' ' ∨ c = ':' ∨ c = ','))
    (d : Char) (hd : d ∈ escapeChar c) :
    ¬(d = ' ' ∨ d = ':' ∨ d = ',' ∨ d = '\n' ∨ d = '\t' ∨ d = '\r') := by
  unfold escapeChar at hd
  by_cases h1 : c = '"'
  · rw [if_pos h1] at hd
    fin_cases hd <;> decide
  · rw [if_neg h1] at hd
    by_cases h2 : c = '\\'
    · rw [if_pos h2] at hd
      fin_cases hd <;> decide
    · rw [if_neg h2] at hd
      by_cases h3 : c.toNat < 32
      · rw [if_pos h3] at hd
        by_cases h4 : c.toNat = 8
        · rw [if_pos h4] at hd; fin_cases hd <;> decide
        · rw [if_neg h4] at hd
          by_cases h5 : c.toNat = 9
          · rw [if_pos h5] at hd; fin_cases hd <;> decide
          · rw [if_neg h5] at hd
            by_cases h6 : c.toNat = 10
            · rw [if_pos h6] at hd; fin_cases hd <;> decide
            · rw [if_neg h6] at hd
              by_cases h7 : c.toNat = 12
              · rw [if_pos h7] at hd; fin_cases hd <;> decide
              · rw [if_neg h7] at hd
                by_cases h8 : c.toNat = 13
                · rw [if_pos h8] at hd; fin_cases hd <;> decide
                · rw [if_neg h8] at hd
                  fin_cases hd
                  · decide
                  · decide
                  · decide
                  · decide
                  · exact (hexDigit_plain ⟨c.toNat / 16, by omega⟩).1
                  · exact (hexDigit_plain ⟨c.toNat % 16, by omega⟩).1
      · rw [if_neg h3] at hd
        have : d = c := by simpa using hd
        subst this
        intro h
        rcases h with h | h | h | h | h | h
        · exact hc (Or.inl h)
        · exact hc (Or.inr (Or.inl h))
        · exact hc (Or.inr (Or.inr h))
        · subst h; exact h3 (by decide)
        · subst h; exact h3 (by decide)
        · subst h; exact h3 (by decide)

theorem seg_quote {s : String} (hs : plainStr s) : Seg (quoteChars s) := by
  apply seg_atom
  · simp [quoteChars]
  · intro c hc
    have hc' : c ∈ ('"' :: ((List.map escapeChar s.data).flatten ++ ['"'])) := hc
    rw [List.mem_cons] at hc'
    rcases hc' with rfl | hc
    · decide
    · rw [List.mem_append] at hc
      rcases hc with hc | hc
      · rw [List.mem_flatten] at hc
        obtain ⟨l', hl', hcl⟩ := hc
        rw [List.mem_map] at hl'
        obtain ⟨c₀, hc₀, he⟩ := hl'
        exact escapeChar_plain (hs c₀ hc₀) c (he ▸ hcl)
      · rw [List.mem_singleton] at hc; subst hc; decide
  · intro h hm
    have hh : '"' = h := by simpa [quoteChars] using hm
    subst hh; decide

theorem natDecAux_digits : ∀ (fuel n : Nat), ∀ c ∈ natDecAux fuel n,
    ∃ d : Fin 10, c = decDigit d.val := by
  intro fuel
  induction fuel with
  | zero => intro n c hc; cases hc
  | succ f ih =>
      intro n c hc
      simp only [natDecAux] at hc
      by_cases hn : n < 10
      · rw [if_pos hn] at hc
        rw [List.mem_singleton] at hc
        exact ⟨⟨n, hn⟩, hc⟩
      · rw [if_neg hn] at hc
        rw [List.mem_append] at hc
        rcases hc with hc | hc
        · exact ih _ c hc
        · rw [List.mem_singleton] at hc
          exact ⟨⟨n % 10, Nat.mod_lt _ (by norm_num)⟩, hc⟩

theorem natDecAux_ne_nil (fuel n : Nat) : natDecAux (fuel + 1) n ≠ [] := by
  simp only [natDecAux]
  by_cases hn : n < 10
  · rw [if_pos hn]; simp
  · rw [if_neg hn]; simp

theorem seg_num (n : Nat) : Seg (natDec n) := by
  apply seg_atom
  · exact natDecAux_ne_nil n n
  · intro c hc
    obtain ⟨d, hd⟩ := natDecAux_digits _ _ c hc
    exact hd ▸ (decDigit_plain d).1
  · intro h hm
    have hmem : h ∈ natDec n := by
      unfold natDec at hm ⊢
      cases hl : natDecAux (n + 1) n with
      | nil => exact absurd hl (natDecAux_ne_nil n n)
      | cons x t => rw [hl] at hm; cases hm; simp [hl]
    obtain ⟨d, hd⟩ := natDecAux_digits _ _ h hmem
    exact hd ▸ (decDigit_plain d).2

theorem seg_sep_append {x y : List Char} {cSep : Char}
    (hsep : cSep = ':' ∨ cSep = ',') (Sx : Seg x) (Sy : Seg y) :
    Seg (x ++ cSep :: ' ' :: y) := by
  have hchain : List.Chain' (fun a b => okPair a b = true) (cSep :: ' ' :: y) := by
    rw [List.chain'_cons]
    constructor
    · rw [okPair_iff]
      exact ⟨fun _ => hsep, fun _ => rfl, fun h => absurd h (by decide)⟩
    · rw [List.chain'_cons']
      refine ⟨fun z hz => ?_, Sy.chain⟩
      have := Sy.headOk z hz
      rw [okPair_iff]
      exact ⟨fun h => absurd h (by tauto), fun h => absurd h (by decide),
        fun h => absurd h (by tauto)⟩
  refine ⟨?_, ?_, ?_, ?_, ?_⟩
  · intro h
    exact Sx.ne (List.append_eq_nil.mp h).1
  · rw [List.chain'_append]
    refine ⟨Sx.chain, hchain, fun a ha z hz => ?_⟩
    have hlast := Sx.lastOk a ha
    have hz' : cSep = z := by simpa using hz
    subst hz'
    rw [okPair_iff]
    refine ⟨fun h => absurd h ?_, fun h => absurd h (by tauto), fun _ => by tauto⟩
    rcases hsep with rfl | rfl <;> decide
  · intro c hc
    rw [List.mem_append] at hc
    rcases hc with hc | hc
    · exact Sx.ctl c hc
    · rw [List.mem_cons] at hc
      rcases hc with rfl | hc
      · rcases hsep with rfl | rfl <;> decide
      · rw [List.mem_cons] at hc
        rcases hc with rfl | hc
        · decide
        · exact Sy.ctl c hc
  · intro h hm
    cases hx : x with
    | nil => exact absurd hx Sx.ne
    | cons a t =>
        rw [hx] at hm
        simp only [List.cons_append, List.head?_cons, Option.mem_def,
          Option.some.injEq] at hm
        subst hm
        exact Sx.headOk a (by rw [hx]; rfl)
  · intro h hm
    have hy : (x ++ cSep :: ' ' :: y).getLast? = y.getLast? := by
      rw [List.getLast?_append_of_ne_nil _ (by simp)]
      rw [List.getLast?_cons_cons]
      cases hyy : y with
      | nil => exact absurd hyy Sy.ne
      | cons b t => rw [List.getLast?_cons_cons]
    rw [hy] at hm
    exact Sy.lastOk h hm

theorem seg_join : ∀ {ps : List (List Char)}, ps ≠ [] →
    (∀ p ∈ ps, Seg p) → Seg (joinComma ps)
  | [], h, _ => absurd rfl h
  | [x], _, hS => by
      simpa [joinComma] using hS x (List.mem_singleton_self x)
  | x :: y :: t, _, hS => by
      have Sx := hS x (List.mem_cons_self _ _)
      have Srest : Seg (joinComma (y :: t)) :=
        seg_join (by simp) (fun p hp => hS p (List.mem_cons_of_mem _ hp))
      simpa [joinComma] using seg_sep_append (Or.inr rfl) Sx Srest

theorem seg_enclose {inner : List Char} {oC cC : Char}
    (h1 : ¬(oC = ' ' ∨ oC = '}' ∨ oC = ']'))
    (h2 : ¬(cC = ' ' ∨ cC = ':' ∨ cC = ','))
    (h3 : ¬(oC = ':' ∨ oC = ','))
    (h4 : okPair oC cC = true)
    (h5 : ¬(oC = '\n' ∨ oC = '\t' ∨ oC = '\r'))
    (h6 : ¬(cC = '\n' ∨ cC = '\t' ∨ cC = '\r'))
    (hS : inner = [] ∨ Seg inner) : Seg (oC :: inner ++ [cC]) := by
  rcases hS with rfl | Si
  · refine ⟨by simp, ?_, ?_, ?_, ?_⟩
    · simpa [List.chain'_cons] using h4
    · intro c hc
      have hc' : c ∈ [oC, cC] := hc
      rw [List.mem_cons, List.mem_singleton] at hc'
      rcases hc' with rfl | rfl
      · exact h5
      · exact h6
    · intro h hm
      have : oC = h := by simpa using hm
      subst this; tauto
    · intro h hm
      have : (oC :: ([] : List Char) ++ [cC]).getLast? = some cC := by
        simp
      rw [this] at hm
      have : cC = h := by simpa using hm
      subst this; exact h2
  · refine ⟨by simp, ?_, ?_, ?_, ?_⟩
    · rw [List.cons_append, List.chain'_cons']
      constructor
      · intro z hz
        rw [List.head?_append_of_ne_nil _ Si.ne] at hz
        have hzOk := Si.headOk z hz
        rw [okPair_iff]
        exact ⟨fun h => absurd h (by tauto), fun h => absurd h h3,
          fun h => absurd h (by tauto)⟩
      · rw [List.chain'_append]
        refine ⟨Si.chain, List.chain'_singleton _, fun a ha z hz => ?_⟩
        have hlast := Si.lastOk a ha
        have hz' : cC = z := by simpa using hz
        subst hz'
        rw [okPair_iff]
        exact ⟨fun h => absurd h (fun hh => h2 (Or.inl hh)),
          fun h => absurd h (by tauto), fun _ => by tauto⟩
    · intro c hc
      rw [List.cons_append, List.mem_cons] at hc
      rcases hc with rfl | hc
      · exact h5
      · rw [List.mem_append] at hc
        rcases hc with hc | hc
        · exact Si.ctl c hc
        · rw [List.mem_singleton] at hc; subst hc; exact h6
    · intro h hm
      have : oC = h := by simpa using hm
      subst this; tauto
    · intro h hm
      have he : (oC :: inner ++ [cC]).getLast? = some cC :=
        List.getLast?_concat _
      rw [he] at hm
      have : cC = h := by simpa using hm
      subst this
      exact h2

theorem seg_objChars {members : List (List Char)}
    (h : ∀ m ∈ members, Seg m) : Seg (objChars members) := by
  unfold objChars
  apply seg_enclose (by decide) (by decide) (by decide) (by decide)
    (by decide) (by decide)
  cases members with
  | nil => exact Or.inl rfl
  | cons m ms => exact Or.inr (seg_join (by simp) h)

theorem seg_arrChars {elems : List (List Char)}
    (h : ∀ m ∈ elems, Seg m) : Seg (arrChars elems) := by
  unfold arrChars
  apply seg_enclose (by decide) (by decide) (by decide) (by decide)
    (by decide) (by decide)
  cases elems with
  | nil => exact Or.inl rfl
  | cons m ms => exact Or.inr (seg_join (by simp) h)

theorem seg_kv {k : String} {v : List Char} (hk : plainStr k) (Sv : Seg v) :
    Seg (kvChars k v) := by
  unfold kvChars
  exact seg_sep_append (Or.inl rfl) (seg_quote hk) Sv

theorem seg_fieldTypeDesc {ft : FieldTypeDesc}
    (h : plainStr ft.nested_type_name) : Seg (fieldTypeDescChars ft) := by
  unfold fieldTypeDescChars
  apply seg_objChars
  intro m hm
  simp only [List.mem_cons, List.mem_nil_iff, or_false] at hm
  rcases hm with rfl | rfl | rfl | rfl
  · exact seg_kv (by decide) (seg_num _)
  · exact seg_kv (by decide) (seg_num _)
  · exact seg_kv (by decide) (seg_num _)
  · exact seg_kv (by decide) (seg_quote h)

theorem seg_fieldDesc {f : FieldDesc}
    (h1 : plainStr f.name) (h2 : plainStr f.type.nested_type_name) :
    Seg (fieldDescChars f) := by
  unfold fieldDescChars
  apply seg_objChars
  intro m hm
  simp only [List.mem_cons, List.mem_nil_iff, or_false] at hm
  rcases hm with rfl | rfl
  · exact seg_kv (by decide) (seg_quote h1)
  · exact seg_kv (by decide) (seg_fieldTypeDesc h2)

theorem seg_typeDescription {td : TypeDescription} (h : plainTD td) :
    Seg (typeDescriptionChars td) := by
  unfold typeDescriptionChars
  apply seg_objChars
  intro m hm
  simp only [List.mem_cons, List.mem_nil_iff, or_false] at hm
  rcases hm with rfl | rfl
  · exact seg_kv (by decide) (seg_quote h.1)
  · refine seg_kv (by decide) (seg_arrChars ?_)
    intro m hm
    rw [List.mem_map] at hm
    obtain ⟨f, hf, rfl⟩ := hm
    exact seg_fieldDesc (h.2 f hf).1 (h.2 f hf).2

theorem seg_tdmsg {m : TypeDescriptionMsg} (h : plainMsg m) :
    Seg (tdmsgChars m) := by
  unfold tdmsgChars
  apply seg_objChars
  intro x hx
  simp only [List.mem_cons, List.mem_nil_iff, or_false] at hx
  rcases hx with rfl | rfl
  · exact seg_kv (by decide) (seg_typeDescription h.1)
  · refine seg_kv (by decide) (seg_arrChars ?_)
    intro x hx
    rw [List.mem_map] at hx
    obtain ⟨td, htd, rfl⟩ := hx
    exact seg_typeDescription (h.2 td htd)

theorem chain'_rel_get? {R : Char → Char → Prop} :
    ∀ {l : List Char}, List.Chain' R l →
      ∀ {i : Nat} {a b : Char}, l[i]? = some a → l[i + 1]? = some b → R a b := by
  intro l
  induction l with
  | nil => intro _ i a b ha _; simp at ha
  | cons x xs ih =>
      intro h i a b ha hb
      rw [List.chain'_cons'] at h
      cases i with
      | zero =>
          have hax : x = a := by simpa using ha
          subst hax
          have hb' : xs.head? = some b := by
            rw [List.head?_eq_getElem?]
            simpa using hb
          exact h.1 b (Option.mem_def.mpr hb')
      | succ j =>
          have ha' : xs[j]? = some a := by simpa using ha
          have hb' : xs[j + 1]? = some b := by simpa using hb
          exact ih h.2 ha' hb'

/-! ## Claim theorems -/

set_option maxRecDepth 100000 in
/-- C1: for the minimal ROS2 message whose only declared field is
`string data` (`std_msgs/String`), resolved alongside the built-in
time/duration (and service-event) types, the content-hash computation —
canonical type description, canonical JSON encoding, SHA-256 over the UTF-8
bytes, rendered as `"RIHS01_"` + 64 lowercase hex characters — returns
exactly
`RIHS01_df668c740482bbd48fb39d76a70dfd4bd59db1288021743503259e948f6b1a18`. -/
theorem c1_string_known_vector_hash :
    (calculate_ros2_hash 2 stdMsgsString builtinGraph).map
        Ros2Hash.to_hash_string =
      some "RIHS01_df668c740482bbd48fb39d76a70dfd4bd59db1288021743503259e948f6b1a18" := by
  rfl

/-- C2: for every parsed service, the service-hash computation synthesizes
the three virtual types — Request, Response, and an Event with fields
`info : service_msgs/ServiceEventInfo` plus `request`/`response` holding the
Request/Response types as `Bounded 1` arrays — plus an aggregate with
exactly the fields `request_message`, `response_message`, `event_message`
referencing those types; the three virtual entries are present in the
internal graph copy, and the returned hash is the hash of the canonical
encoding of the aggregate (over that extended graph), not of the request
and response independently. -/
theorem c2_service_hash_synthesizes_aggregate (fuel : Nat)
    (parsed : ParsedServiceFile) (graph : Graph) :
    ((srv_total_message_file parsed).fields.map
        (fun f => (f.field_name, f.field_type.package_name,
                   f.field_type.field_type, f.field_type.array_info)) =
      [("request_message", some parsed.package, parsed.name ++ "_Request",
        ArrayType.NotArray),
       ("response_message", some parsed.package, parsed.name ++ "_Response",
        ArrayType.NotArray),
       ("event_message", some parsed.package, parsed.name ++ "_Event",
        ArrayType.NotArray)])
  ∧ ((srv_event_msg parsed).fields.map
        (fun f => (f.field_name, f.field_type.package_name,
                   f.field_type.field_type, f.field_type.array_info)) =
      [("info", some "service_msgs", "ServiceEventInfo", ArrayType.NotArray),
       ("request", some parsed.package, parsed.name ++ "_Request",
        ArrayType.Bounded 1),
       ("response", some parsed.package, parsed.name ++ "_Response",
        ArrayType.Bounded 1)])
  ∧ (srv_graph_copy parsed graph).get (parsed.get_full_name ++ "_Event") =
      some (srvDummyEntry (srv_event_msg parsed))
  ∧ (srv_graph_copy parsed graph).get (parsed.get_full_name ++ "_Request") =
      some (srvDummyEntry
        { parsed.request_type with name := parsed.name ++ "_Request" })
  ∧ (srv_graph_copy parsed graph).get (parsed.get_full_name ++ "_Response") =
      some (srvDummyEntry
        { parsed.response_type with name := parsed.name ++ "_Response" })
  ∧ calculate_ros2_srv_hash fuel parsed graph =
      (convert_to_type_description fuel (srv_total_message_file parsed)
        (srv_graph_copy parsed graph) true).toOption.map calculate_hash := by
  refine ⟨rfl, rfl, ?_, ?_, ?_, ?_⟩
  · unfold srv_graph_copy
    rw [Graph.get_insert, Graph.get_insert, Graph.get_insert]
    rw [if_neg (append_ne_of_length_ne _ _ _ (by decide)),
        if_neg (append_ne_of_length_ne _ _ _ (by decide)), if_pos rfl]
  · unfold srv_graph_copy
    rw [Graph.get_insert, Graph.get_insert]
    rw [if_neg (append_ne_of_length_ne _ _ _ (by decide)), if_pos rfl]
  · unfold srv_graph_copy
    rw [Graph.get_insert, if_pos rfl]
  · unfold calculate_ros2_srv_hash
    cases convert_to_type_description fuel (srv_total_message_file parsed)
      (srv_graph_copy parsed graph) true <;> rfl

/-- C3: for every canonical structural form whose strings are plain (no
space, colon or comma — true of every name the parser produces), the
canonical JSON encoding is a single line (no `\n`, `\t` or `\r` anywhere),
every space is the second character of a `": "` or `", "` separator, every
separator colon/comma is followed by exactly one space, and no closing
bracket is preceded by a space (no separator before a closing bracket). -/
theorem c3_canonical_json_single_line_separators (m : TypeDescriptionMsg)
    (hp : plainMsg m) :
    (∀ c ∈ tdmsgChars m, ¬(c = '\n' ∨ c = '\t' ∨ c = '\r'))
  ∧ (∀ i : Nat, (tdmsgChars m)[i]? = some ' ' →
      ∃ j, i = j + 1 ∧
        ((tdmsgChars m)[j]? = some ':' ∨ (tdmsgChars m)[j]? = some ','))
  ∧ (∀ (i : Nat) (c : Char), (tdmsgChars m)[i]? = some c →
      (c = ':' ∨ c = ',') → (tdmsgChars m)[i + 1]? = some ' ')
  ∧ (∀ (i : Nat) (c : Char), (tdmsgChars m)[i + 1]? = some c →
      (c = '}' ∨ c = ']') → (tdmsgChars m)[i]? ≠ some ' ') := by
  have S := seg_tdmsg hp
  have hhead : (tdmsgChars m)[0]? = some '{' := rfl
  have hlast : (tdmsgChars m).getLast? = some '}' := List.getLast?_concat _
  refine ⟨S.ctl, ?_, ?_, ?_⟩
  · intro i hi
    cases i with
    | zero => rw [hhead] at hi; cases hi
    | succ j =>
        have hj : j < (tdmsgChars m).length := by
          obtain ⟨hlt, -⟩ := List.getElem?_eq_some_iff.mp hi
          omega
        have ha : (tdmsgChars m)[j]? = some ((tdmsgChars m)[j]) :=
          List.getElem?_eq_getElem hj
        have hr := chain'_rel_get? S.chain ha hi
        have := (okPair_iff.mp hr).1 rfl
        refine ⟨j, rfl, ?_⟩
        rcases this with h | h
        · exact Or.inl (by rw [ha, h])
        · exact Or.inr (by rw [ha, h])
  · intro i c hi hc
    cases hnext : (tdmsgChars m)[i + 1]? with
    | some b =>
        have hr := chain'_rel_get? S.chain hi hnext
        have hb := (okPair_iff.mp hr).2.1 hc
        exact congrArg some hb
    | none =>
        exfalso
        have hlen : (tdmsgChars m).length ≤ i + 1 :=
          List.getElem?_eq_none_iff.mp hnext
        have hilt : i < (tdmsgChars m).length := by
          obtain ⟨hlt, -⟩ := List.getElem?_eq_some_iff.mp hi
          omega
        have hieq : i = (tdmsgChars m).length - 1 := by omega
        rw [List.getLast?_eq_getElem?, ← hieq, hi] at hlast
        cases hlast
        rcases hc with h | h <;> cases h
  · intro i c hi hc hsp
    have hr := chain'_rel_get? S.chain hsp hi
    exact (okPair_iff.mp hr).2.2 hc rfl

/-- C3 witness: the theorem applied to the canonical structural form of
`std_msgs/String`, whose strings are all plain. -/
theorem c3_canonical_json_single_line_separators_witness :
    plainMsg ⟨⟨"std_msgs/msg/String", [⟨"data", ⟨17, 0, 0, ""⟩⟩]⟩, []⟩
  ∧ ((∀ c ∈ tdmsgChars ⟨⟨"std_msgs/msg/String",
        [⟨"data", ⟨17, 0, 0, ""⟩⟩]⟩, []⟩,
      ¬(c = '\n' ∨ c = '\t' ∨ c = '\r'))
  ∧ (∀ i : Nat, (tdmsgChars ⟨⟨"std_msgs/msg/String",
        [⟨"data", ⟨17, 0, 0, ""⟩⟩]⟩, []⟩)[i]? = some ' ' →
      ∃ j, i = j + 1 ∧
        ((tdmsgChars ⟨⟨"std_msgs/msg/String",
            [⟨"data", ⟨17, 0, 0, ""⟩⟩]⟩, []⟩)[j]? = some ':'
         ∨ (tdmsgChars ⟨⟨"std_msgs/msg/String",
            [⟨"data", ⟨17, 0, 0, ""⟩⟩]⟩, []⟩)[j]? = some ','))
  ∧ (∀ (i : Nat) (c : Char), (tdmsgChars ⟨⟨"std_msgs/msg/String",
        [⟨"data", ⟨17, 0, 0, ""⟩⟩]⟩, []⟩)[i]? = some c →
      (c = ':' ∨ c = ',') →
      (tdmsgChars ⟨⟨"std_msgs/msg/String",
        [⟨"data", ⟨17, 0, 0, ""⟩⟩]⟩, []⟩)[i + 1]? = some ' ')
  ∧ (∀ (i : Nat) (c : Char), (tdmsgChars ⟨⟨"std_msgs/msg/String",
        [⟨"data", ⟨17, 0, 0, ""⟩⟩]⟩, []⟩)[i + 1]? = some c →
      (c = '}' ∨ c = ']') →
      (tdmsgChars ⟨⟨"std_msgs/msg/String",
        [⟨"data", ⟨17, 0, 0, ""⟩⟩]⟩, []⟩)[i]? ≠ some ' ')) :=
  ⟨by decide, c3_canonical_json_single_line_separators _ (by decide)⟩

/-- C4 counterexample: the claim's "a scalar `char` field derives
FIELD_TYPE_CHAR and a scalar `byte` field derives FIELD_TYPE_BYTE" is false
on the code: `char` is remapped to `uint8` before the table lookup (yielding
FIELD_TYPE_UINT8, tag 3), and `byte` is absent from the table (which keys
`octet`), so it falls back to FIELD_TYPE_NESTED_TYPE (tag 1). -/
theorem c4_char_byte_tag_counterexample :
    get_field_type_string ⟨none, "pkg", "char", ArrayType.NotArray, none⟩ =
      "FIELD_TYPE_UINT8"
  ∧ get_field_type_string ⟨none, "pkg", "char", ArrayType.NotArray, none⟩ ≠
      "FIELD_TYPE_CHAR"
  ∧ get_field_type_id ⟨none, "pkg", "char", ArrayType.NotArray, none⟩ =
      Except.ok 3
  ∧ get_field_type_string ⟨none, "pkg", "byte", ArrayType.NotArray, none⟩ =
      "FIELD_TYPE_NESTED_TYPE"
  ∧ get_field_type_string ⟨none, "pkg", "byte", ArrayType.NotArray, none⟩ ≠
      "FIELD_TYPE_BYTE"
  ∧ get_field_type_id ⟨none, "pkg", "byte", ArrayType.NotArray, none⟩ =
      Except.ok 1 :=
  ⟨rfl, by decide, rfl, rfl, by decide, rfl⟩

set_option maxHeartbeats 1000000 in
/-- C4 (amended): the symbolic tag name is `"FIELD_TYPE_"` + a `BOUNDED_`
marker iff the field carries a string capacity + the canonical core name
from the table (with `char` remapped to `uint8`, hence core `UINT8`, and
`byte` falling back to the generic `NESTED_TYPE` because the table keys
`octet`) + the array suffix (none / `_ARRAY` / `_BOUNDED_SEQUENCE` /
`_UNBOUNDED_SEQUENCE`); the name is looked up in the fixed numeric table
and an absent combination is reported as a returned Hash error. -/
theorem c4_field_type_tag_amended :
    (∀ ft : FieldType, ∃ core : String,
        get_field_type_string { ft with string_capacity := none } =
          "FIELD_TYPE_" ++ core
      ∧ ∀ cap : Nat,
          get_field_type_string { ft with string_capacity := some cap } =
            "FIELD_TYPE_BOUNDED_" ++ core)
  ∧ (∀ (ft : FieldType) (n : Nat),
        get_field_type_string { ft with array_info := ArrayType.FixedLength n } =
          get_field_type_string { ft with array_info := ArrayType.NotArray }
            ++ "_ARRAY"
      ∧ get_field_type_string { ft with array_info := ArrayType.Bounded n } =
          get_field_type_string { ft with array_info := ArrayType.NotArray }
            ++ "_BOUNDED_SEQUENCE"
      ∧ get_field_type_string { ft with array_info := ArrayType.Unbounded } =
          get_field_type_string { ft with array_info := ArrayType.NotArray }
            ++ "_UNBOUNDED_SEQUENCE")
  ∧ (∀ (pn : Option String) (sp : String), ∀ p ∈ c4AmendedScalarTable,
        get_field_type_string ⟨pn, sp, p.1, ArrayType.NotArray, none⟩ =
          "FIELD_TYPE_" ++ p.2)
  ∧ (∀ (pn : Option String) (sp ty : String),
        lookupTable FIELD_VALUE_TYPE_NAMES ty = none → ty ≠ "char" →
        get_field_type_string ⟨pn, sp, ty, ArrayType.NotArray, none⟩ =
          "FIELD_TYPE_NESTED_TYPE")
  ∧ (∀ ft : FieldType,
        (∀ i, lookupTypeId (get_field_type_string ft) = some i →
           get_field_type_id ft = Except.ok i)
      ∧ (lookupTypeId (get_field_type_string ft) = none →
           ∃ e, get_field_type_id ft = Except.error e)) := by
  refine ⟨?_, ?_, ?_, ?_, ?_⟩
  · intro ft
    obtain ⟨pn, sp, fty, ai, sc⟩ := ft
    refine ⟨(match lookupTable FIELD_VALUE_TYPE_NAMES
        (if fty = "char" then "uint8" else fty) with
      | some name => name
      | none => "NESTED_TYPE") ++
        (match ai with
         | ArrayType.FixedLength _ => "_ARRAY"
         | ArrayType.Unbounded => "_UNBOUNDED_SEQUENCE"
         | ArrayType.Bounded _ => "_BOUNDED_SEQUENCE"
         | ArrayType.NotArray => ""), ?_, ?_⟩
    · cases hlk : lookupTable FIELD_VALUE_TYPE_NAMES
          (if fty = "char" then "uint8" else fty) <;>
        cases ai <;>
          simp only [get_field_type_string, hlk,
            ← String.append_assoc] <;> rfl
    · intro cap
      cases hlk : lookupTable FIELD_VALUE_TYPE_NAMES
          (if fty = "char" then "uint8" else fty) <;>
        cases ai <;>
          simp only [get_field_type_string, hlk,
            ← String.append_assoc] <;> rfl
  · intro ft n
    obtain ⟨pn, sp, fty, ai, sc⟩ := ft
    refine ⟨?_, ?_, ?_⟩ <;>
      · cases hlk : lookupTable FIELD_VALUE_TYPE_NAMES
            (if fty = "char" then "uint8" else fty) <;>
          cases sc <;>
            simp only [get_field_type_string, hlk, String.append_empty,
              String.append_assoc]
  · intro pn sp p hp
    fin_cases hp <;> rfl
  · intro pn sp ty hlk hch
    simp only [get_field_type_string, if_neg hch, hlk]
    rfl
  · intro ft
    constructor
    · intro i hi
      simp only [get_field_type_id, hi]
    · intro hn
      simp only [get_field_type_id, hn]
      exact ⟨_, rfl⟩

/-- C4 witness: the amended theorem applied at concrete inputs — the
`bool` row of the scalar table, a missing-name scalar, and the id lookup
for a scalar `bool` field. -/
theorem c4_field_type_tag_amended_witness :
    get_field_type_string ⟨none, "pkg", "bool", ArrayType.NotArray, none⟩ =
      "FIELD_TYPE_" ++ "BOOLEAN"
  ∧ get_field_type_string
      ⟨some "geometry_msgs", "pkg", "Pose", ArrayType.NotArray, none⟩ =
      "FIELD_TYPE_NESTED_TYPE"
  ∧ get_field_type_id ⟨none, "pkg", "bool", ArrayType.NotArray, none⟩ =
      Except.ok 15 :=
  ⟨c4_field_type_tag_amended.2.2.1 none "pkg" ("bool", "BOOLEAN")
      (by decide),
   c4_field_type_tag_amended.2.2.2.1 (some "geometry_msgs") "pkg" "Pose"
      (by decide) (by decide),
   (c4_field_type_tag_amended.2.2.2.2
      ⟨none, "pkg", "bool", ArrayType.NotArray, none⟩).1 15 (by rfl)⟩

/-- C5: for a message whose non-primitive field names a type absent from
the graph, `convert_to_type_description` returns a Graph error identifying
the missing type and the referring message — but the public entry point
`calculate_ros2_hash` unwraps that error with `.expect`, i.e. panics
(modelled as `none`) instead of returning it, contradicting its own doc
comment ("Returns None if the message definition is not hashable"). -/
theorem c5_missing_dependency_error_and_panic :
    convert_to_type_description 3 missingDepMsg builtinGraph false =
      Except.error
        "Failed to find definition for nested type: missing_pkg/Nope while hashing test_pkg/BadMsg for ROS2"
  ∧ calculate_ros2_hash 3 missingDepMsg builtinGraph = none :=
  ⟨rfl, rfl⟩

set_option maxHeartbeats 1000000 in
/-- C6: a message with zero declared fields lowers to exactly one phantom
field named `structure_needs_at_least_one_member` with the uint8 tag 3,
zero capacities and an empty nested-type name; a message with at least one
declared field lowers to exactly one field description per declared field
(positionally, with matching names) — no phantom is synthesized. -/
theorem c6_empty_message_phantom_field (fuel : Nat)
    (parsed : ParsedMessageFile) (graph : Graph) (b : Bool) :
    (parsed.fields = [] →
       convert_to_type_description (fuel + 1) parsed graph b =
         Except.ok ⟨⟨parsed.get_ros2_full_name,
           [⟨"structure_needs_at_least_one_member", ⟨3, 0, 0, ""⟩⟩]⟩, []⟩)
  ∧ (parsed.fields ≠ [] →
       ∀ td, convert_to_type_description (fuel + 1) parsed graph b =
           Except.ok td →
         td.type_description.fields.length = parsed.fields.length ∧
         ∀ i : Nat, (td.type_description.fields[i]?).map FieldDesc.name =
              (parsed.fields[i]?).map FieldInfo.field_name) := by
  constructor
  · intro hf
    simp [convert_to_type_description, hf, convertFieldsGo, phantomField]
  · intro hf td h
    simp only [convert_to_type_description] at h
    split at h
    · cases h
    · rename_i flds refs hgo
      rw [Except.ok.injEq] at h
      subst h
      have hfields := convertFieldsGo_fields _ parsed graph b _ _ _ _ hgo
      have hinit :
          (if parsed.fields.isEmpty = true then [phantomField] else []) =
            [] := by
        cases hfe : parsed.fields with
        | nil => exact absurd hfe hf
        | cons a l => simp
      rw [hinit, List.nil_append] at hfields
      have hflds : flds = List.map (fieldDescOf b) parsed.fields := hfields
      constructor
      · simp [hflds]
      · intro i
        rw [hflds]
        simp only [List.getElem?_map]
        cases parsed.fields[i]? <;> rfl

/-- C6 witness: the empty message `test_pkg/Empty` produces exactly the
phantom field; the one-field `std_msgs/String` produces exactly one field
description named `data`. -/
theorem c6_empty_message_phantom_field_witness :
    convert_to_type_description 1 emptyMsg [] false =
      Except.ok ⟨⟨"test_pkg/msg/Empty",
        [⟨"structure_needs_at_least_one_member", ⟨3, 0, 0, ""⟩⟩]⟩, []⟩
  ∧ ((⟨⟨"std_msgs/msg/String", [⟨"data", ⟨17, 0, 0, ""⟩⟩]⟩, []⟩ :
        TypeDescriptionMsg).type_description.fields.length =
      stdMsgsString.fields.length
  ∧ ∀ i : Nat, ((⟨⟨"std_msgs/msg/String", [⟨"data", ⟨17, 0, 0, ""⟩⟩]⟩, []⟩ :
        TypeDescriptionMsg).type_description.fields[i]?).map FieldDesc.name =
      (stdMsgsString.fields[i]?).map FieldInfo.field_name) :=
  ⟨(c6_empty_message_phantom_field 0 emptyMsg [] false).1 rfl,
   (c6_empty_message_phantom_field 0 stdMsgsString [] false).2 (by decide)
     ⟨⟨"std_msgs/msg/String", [⟨"data", ⟨17, 0, 0, ""⟩⟩]⟩, []⟩ rfl⟩

/-- C7 counterexample: the claim says that under ProtocolVersion V2 the
bare tokens `time` and `duration` are NOT intrinsic; but
`ROS_PRIMITIVE_TYPE_LIST`, which `is_intrinsic_type` consults for ROS2,
contains both, so they ARE intrinsic under V2. -/
theorem c7_ros2_time_intrinsic_counterexample :
    is_intrinsic_type RosVersion.ROS2 "time" = true
  ∧ is_intrinsic_type RosVersion.ROS2 "duration" = true := by
  exact ⟨rfl, rfl⟩

/-- C7 (amended): intrinsic-ness of a bare token is decided by a
version-specific table; `time` and `duration` are intrinsic under V1 AND
under V2 (the ROS2 primitive list contains them), so under V2 a bare
`time`/`duration` field resolves with no referenced package rather than as
a package-qualified user-type reference (the tables differ elsewhere:
`wstring` is intrinsic only under V2). -/
theorem c7_intrinsic_tables_amended (pkg : Package)
    (h : pkg.version = some RosVersion.ROS2) :
    is_intrinsic_type RosVersion.ROS1 "time" = true
  ∧ is_intrinsic_type RosVersion.ROS1 "duration" = true
  ∧ is_intrinsic_type RosVersion.ROS2 "time" = true
  ∧ is_intrinsic_type RosVersion.ROS2 "duration" = true
  ∧ is_intrinsic_type RosVersion.ROS1 "wstring" = false
  ∧ is_intrinsic_type RosVersion.ROS2 "wstring" = true
  ∧ parse_field_type "time" ArrayType.NotArray pkg =
      Except.ok ⟨none, pkg.name, "time", ArrayType.NotArray, none⟩
  ∧ parse_field_type "duration" ArrayType.NotArray pkg =
      Except.ok ⟨none, pkg.name, "duration", ArrayType.NotArray, none⟩ := by
  refine ⟨rfl, rfl, rfl, rfl, rfl, rfl, ?_, ?_⟩ <;>
    · simp [parse_field_type, h, strSplitOn, splitOnChar,
        parse_bounded_string, strStartsWith, is_intrinsic_type, lookupTable]
      decide

/-- C7 witness: the amended theorem applied to a concrete ROS2 package. -/
theorem c7_intrinsic_tables_amended_witness :
    is_intrinsic_type RosVersion.ROS1 "time" = true
  ∧ is_intrinsic_type RosVersion.ROS1 "duration" = true
  ∧ is_intrinsic_type RosVersion.ROS2 "time" = true
  ∧ is_intrinsic_type RosVersion.ROS2 "duration" = true
  ∧ is_intrinsic_type RosVersion.ROS1 "wstring" = false
  ∧ is_intrinsic_type RosVersion.ROS2 "wstring" = true
  ∧ parse_field_type "time" ArrayType.NotArray
      ⟨"test_pkg", "./not_a_path", some RosVersion.ROS2⟩ =
      Except.ok ⟨none, "test_pkg", "time", ArrayType.NotArray, none⟩
  ∧ parse_field_type "duration" ArrayType.NotArray
      ⟨"test_pkg", "./not_a_path", some RosVersion.ROS2⟩ =
      Except.ok ⟨none, "test_pkg", "duration", ArrayType.NotArray, none⟩ :=
  c7_intrinsic_tables_amended
    ⟨"test_pkg", "./not_a_path", some RosVersion.ROS2⟩ rfl

/-- C8: the array-bracket grammar — `T[]` parses Unbounded, `T[N]` parses
FixedLength N, `T[<=N]` parses Bounded N, a single bracket or a
non-numeric bound is a returned Parse error — but a `]` occurring before
`[` is NOT a returned error: the code underflows `c - o` on `usize` and
slices out of bounds, i.e. panics, diverging from the claim. -/
theorem c8_array_bracket_grammar_and_panic :
    parse_type "int32[]" pkgT =
      ParseOutcome.ok ⟨none, "test_pkg", "int32", ArrayType.Unbounded, none⟩
  ∧ parse_type "int32[7]" pkgT =
      ParseOutcome.ok
        ⟨none, "test_pkg", "int32", ArrayType.FixedLength 7, none⟩
  ∧ parse_type "int32[<=9]" pkgT =
      ParseOutcome.ok ⟨none, "test_pkg", "int32", ArrayType.Bounded 9, none⟩
  ∧ (parse_type "int32[" pkgT).isErr = true
  ∧ (parse_type "int32]" pkgT).isErr = true
  ∧ (parse_type "int32[x]" pkgT).isErr = true
  ∧ (parse_type "int32[<=x]" pkgT).isErr = true
  ∧ parse_type "int32]3[" pkgT = ParseOutcome.panic :=
  ⟨rfl, rfl, rfl, rfl, rfl, rfl, rfl, rfl⟩

/-- C9 counterexample: the claim says a token with more than one `/` (or
with empty segments) makes the resolver fail with a Parse error; but the
code silently resolves `a/b/c` using only its first two segments, and
accepts empty segments. -/
theorem c9_multi_slash_counterexample :
    parse_field_type "a/b/c" ArrayType.NotArray pkgT =
      Except.ok ⟨some "a", "test_pkg", "b", ArrayType.NotArray, none⟩
  ∧ parse_field_type "pkg/" ArrayType.NotArray pkgT =
      Except.ok ⟨some "pkg", "test_pkg", "", ArrayType.NotArray, none⟩
  ∧ parse_field_type "/Type" ArrayType.NotArray pkgT =
      Except.ok ⟨some "", "test_pkg", "Type", ArrayType.NotArray, none⟩ :=
  ⟨rfl, rfl, rfl⟩

/-- C9 (amended): every type token splitting into two or more `/`-separated
segments — including tokens with more than one `/` and tokens with empty
segments — resolves successfully to a package redirect built from the first
two segments only; no Parse error is raised for extra or empty segments. -/
theorem c9_multi_slash_amended (type_str : String) (ai : ArrayType)
    (pkg : Package) (h : 2 ≤ (strSplitOn type_str '/').length) :
    parse_field_type type_str ai pkg =
      Except.ok ⟨some (strSplitOn type_str '/').headI, pkg.name,
        (strSplitOn type_str '/').getD 1 "", ai, none⟩ := by
  unfold parse_field_type
  rw [if_neg (by omega)]

/-- C9 witness: the amended theorem applied to the token `a/b/c`. -/
theorem c9_multi_slash_amended_witness :
    2 ≤ (strSplitOn "a/b/c" '/').length
  ∧ parse_field_type "a/b/c" ArrayType.Unbounded pkgT =
      Except.ok ⟨some (strSplitOn "a/b/c" '/').headI, pkgT.name,
        (strSplitOn "a/b/c" '/').getD 1 "", ArrayType.Unbounded, none⟩ :=
  ⟨by decide, c9_multi_slash_amended "a/b/c" ArrayType.Unbounded pkgT
    (by decide)⟩

/-- C10: computing a service hash leaves the caller's graph unchanged — the
three synthetic entries live only in the internal copy: at every key other
than the three virtual names the copy agrees with the caller's graph, and
the caller-visible graph after the call is exactly the input graph. -/
theorem c10_srv_hash_graph_frame (fuel : Nat) (parsed : ParsedServiceFile)
    (graph : Graph) (k : String)
    (h : k ≠ parsed.get_full_name ++ "_Event"
       ∧ k ≠ parsed.get_full_name ++ "_Request"
       ∧ k ≠ parsed.get_full_name ++ "_Response") :
    (srv_graph_copy parsed graph).get k = graph.get k
  ∧ (calculate_ros2_srv_hash_st fuel parsed graph).2 = graph := by
  obtain ⟨h1, h2, h3⟩ := h
  constructor
  · unfold srv_graph_copy
    rw [Graph.get_insert, Graph.get_insert, Graph.get_insert,
        if_neg h3, if_neg h2, if_neg h1]
  · rfl

/-- C10 witness: the frame theorem applied to the `AddTwoInts` service,
the built-in graph and a key unrelated to the three virtual names. -/
theorem c10_srv_hash_graph_frame_witness :
    (srv_graph_copy addTwoIntsSrv builtinGraph).get "builtin_interfaces/Time"
      = builtinGraph.get "builtin_interfaces/Time"
  ∧ (calculate_ros2_srv_hash_st 1 addTwoIntsSrv builtinGraph).2 =
      builtinGraph :=
  c10_srv_hash_graph_frame 1 addTwoIntsSrv builtinGraph
    "builtin_interfaces/Time" (by decide)

end Roslibrust
